import Mathlib

/-!
The report aggregation and summarisation pipeline of ai-osint-mvp.

A shallow embedding of `src/generateReports.go` (with the row filter of
`src/fetcher.go`) and proofs about it.

Modelling conventions.

* Go `string` values are Lean `String`s; the text handed to `Summarize` is a byte
  sequence (`Bytes`), because `generateOverallSummary` cuts tweet texts with the
  byte slice `tweet[:100]`, which need not end on a character boundary.
* Go `int` is `Int`.  Every count in the pipeline is the length of a slice held in
  memory or a sum of such lengths, so 64-bit wrap-around is not modelled.
* A Go `error` is its message (a `String`); a function returning `(T, error)`
  returns `Except String T`.  A run-time panic (index out of range) is `none`.
* A Go `map[string]V` is an association list in insertion order (`GoMap`).  Go
  leaves the order of `range` over a map unspecified; every such loop takes the
  order in which the keys are visited as an explicit argument, and theorems that
  depend on it assume that this order is a permutation of the keys of the map.
* The outside world (the `.env` file, the database, the allow-list file, the
  language model) is a record of outcomes (`DayStore`, `LLMEnv`, `World`); the field
  `DayStore.getAccounts` stands for the result of `getAccounts`, which is itself
  embedded as `getAccounts` over the outcome of `os.ReadFile`, a file being a valid
  UTF-8 text.  Console output (`fmt.Printf`) is not modelled.
* A `time.Time` is an instant in Unix seconds with a location (`Time`); the zone
  table of a location is a parameter (`Location`), and `AddDate(0, 0, n)` follows
  Go's `Date`, which looks the zone offset up again for the shifted wall clock.
-/

namespace OsintReports

/-! ## Data model (`types.go`, `generateReports.go` lines 17-36) -/

/-- Go `Tweet` of `types.go`. -/
structure Tweet where
  ID : String
  Text : String
  CreatedAt : String
  Username : String
deriving DecidableEq, Repr

/-- Go `AccountReport`. -/
structure AccountReport where
  Username : String
  TweetCount : Int
  Summary : String
  Tweets : List Tweet
deriving DecidableEq, Repr

/-- Go `DailyReport`. -/
structure DailyReport where
  Date : String
  TotalTweets : Int
  AccountReports : List AccountReport
deriving DecidableEq, Repr

/-- Go `WeeklyReport`. -/
structure WeeklyReport where
  StartDate : String
  EndDate : String
  DailyReports : List DailyReport
  OverallSummary : String
  TotalTweets : Int
deriving DecidableEq, Repr

/-! ## `time.Time`, `AddDate` and the layout `"2006-01-02"` -/

/-- What Go's `(*Location).lookup(sec)` returns for an instant `sec`: the offset from
UTC, in seconds, of the zone in effect at `sec`, and the interval `[start, stop)` of
instants during which that zone is in effect. -/
structure Zone where
  offset : Int
  start : Int
  stop : Int
deriving DecidableEq, Repr

/-- A `*time.Location`, given by its `lookup` from Unix seconds to the zone in
effect.  The time zone database is not part of the repository and is a parameter. -/
abbrev Location := Int → Zone

/-- A `time.Time`: an instant in Unix seconds together with a location.  The
nanoseconds, which `AddDate` carries over and the layout `"2006-01-02"` does not
print, are left out. -/
structure Time where
  unix : Int
  loc : Location

/-- The wall clock that `t` shows in its location, in seconds from 1970-01-01 00:00:00
of that wall clock (Go `t.abs()`, on which `t.Date()` and `t.Clock()` are based). -/
def Time.wall (t : Time) : Int :=
  t.unix + (t.loc t.unix).offset

/-- The calendar day on which `t` falls in its location, in days from 1970-01-01. -/
def Time.day (t : Time) : Int :=
  t.wall / 86400

/-- Go `time.Date(year, month, day, hour, min, sec, nsec, loc)`, from the point where
the date and the clock have been normalised into the wall-clock seconds `wall`: the
offset is looked up at `wall` taken as an instant and, when the instant found with it
lies outside the interval of that zone, looked up again at that instant. -/
def timeDate (wall : Int) (loc : Location) : Time :=
  let zone := loc wall
  if zone.offset ≠ 0 then
    let utc := wall - zone.offset
    let offset :=
      if utc < zone.start ∨ utc ≥ zone.stop then (loc utc).offset else zone.offset
    ⟨wall - offset, loc⟩
  else
    ⟨wall, loc⟩

/-- Go `t.AddDate(0, 0, days)`:
`Date(year, month, day+days, hour, min, sec, nsec, t.Location())` with the date and
clock of `t`. -/
def Time.AddDate (t : Time) (days : Int) : Time :=
  timeDate (t.wall + days * 86400) t.loc

/-- Year, month and day of the proleptic Gregorian calendar for a day count from
1970-01-01. -/
def civilFromDays (days : Int) : Int × Int × Int :=
  let z := days + 719468
  let era := z / 146097
  let doe := z % 146097
  let yoe := (doe - doe / 1460 + doe / 36524 - doe / 146096) / 365
  let doy := doe - (365 * yoe + yoe / 4 - yoe / 100)
  let mp := (5 * doy + 2) / 153
  let d := doy - (153 * mp + 2) / 5 + 1
  let m := if mp < 10 then mp + 3 else mp - 9
  let y := yoe + era * 400 + (if m ≤ 2 then 1 else 0)
  (y, m, d)

/-- Decimal digits of `n`, padded with zeros on the left to `width` digits. -/
def padZero (width : Nat) (n : Nat) : String :=
  String.mk (List.replicate (width - (toString n).length) '0') ++ toString n

/-- Go `appendInt(b, x, width)` of package `time`: a sign for negative numbers, then
the zero-padded magnitude. -/
def appendInt (x : Int) (width : Nat) : String :=
  if x < 0 then "-" ++ padZero width x.natAbs else padZero width x.toNat

/-- The text that the layout `"2006-01-02"` prints for the calendar day `day` (days
from 1970-01-01). -/
def formatDay (day : Int) : String :=
  let ymd := civilFromDays day
  appendInt ymd.1 4 ++ "-" ++ appendInt ymd.2.1 2 ++ "-" ++ appendInt ymd.2.2 2

/-- Go `t.Format("2006-01-02")`. -/
def Time.Format (t : Time) : String :=
  formatDay t.day

/-- A Go `map[string]V`: the entries in insertion order, keys pairwise distinct. -/
abbrev GoMap (V : Type) := List (String × V)

/-- Go `m[k]`: the value stored under `k`, or the zero value when `k` is absent. -/
def GoMap.get {V : Type} (zero : V) : GoMap V → String → V
  | [], _ => zero
  | (k', v) :: m, k => if k' = k then v else GoMap.get zero m k

/-- Go `m[k] = v`: overwrite the entry of `k`, or add a new entry. -/
def GoMap.set {V : Type} : GoMap V → String → V → GoMap V
  | [], k, v => [(k, v)]
  | (k', v') :: m, k, v => if k' = k then (k, v) :: m else (k', v') :: GoMap.set m k v

/-- The keys of a map, in insertion order. -/
def GoMap.keys {V : Type} (m : GoMap V) : List String :=
  m.map Prod.fst

/-! ## The outside world -/

/-- A Go string as the bytes of its UTF-8 encoding. -/
abbrev Bytes := List UInt8

/-- The UTF-8 bytes of a string. -/
def utf8 (s : String) : Bytes :=
  (s.data.map String.utf8EncodeChar).flatten

/-- What the language-model side of a run returns: the outcome of
`godotenv.Load(".env")`, the value of `OPENAI_API_KEY`, and the outcome of each
`Summarize(text, token)` call (`llm.go`), which is an external service. -/
structure LLMEnv where
  envErr : Option String
  openaiToken : String
  Summarize : Bytes → String → Except String String

/-- What the external steps of `loadTweetsForDay` return for one day: the outcome of
`godotenv.Load`, the value of `DATABASE_POOL_URL`, the outcomes of `pgx.Connect` and
`conn.Query`, the result of `getAccounts` for a list name, and the rows delivered by
`rows.Next`/`rows.Scan` in order (a scanned row carries `CreatedAt` already
formatted). -/
structure DayStore where
  envErr : Option String
  databaseUrl : String
  connectErr : Option String
  queryErr : Option String
  getAccounts : String → Except String (List String)
  rows : List (Except String Tweet)

/-! ## `loadTweetsForDay` and `loadTweets` -/

/-- The row loop of `loadTweetsForDay` (lines 73-87) and of `loadTweets`
(`fetcher.go` lines 63-77): a row that fails to scan aborts with an error, a row
whose username is in `validAccounts` (`slices.Contains`) is appended. -/
def scanRows (validAccounts : List String) :
    List (Except String Tweet) → List Tweet → Except String (List Tweet)
  | [], tweets => .ok tweets
  | .error err :: _, _ => .error ("failed to scan row: " ++ err)
  | .ok tweet :: rest, tweets =>
    if validAccounts.contains tweet.Username then
      scanRows validAccounts rest (tweets ++ [tweet])
    else
      scanRows validAccounts rest tweets

/-- Go `loadTweetsForDay`. -/
def loadTweetsForDay (store : DayStore) (accountsList : String) (targetDate : Time) :
    Except String (List Tweet) :=
  match store.envErr with
  | some err => .error ("error loading .env file: " ++ err)
  | none =>
    if store.databaseUrl = "" then
      .error "DATABASE_POOL_URL environment variable not set"
    else
      match store.connectErr with
      | some err => .error ("failed to connect to database: " ++ err)
      | none =>
        match store.queryErr with
        | some err =>
          .error ("failed to query tweets for date " ++ targetDate.Format ++ ": " ++ err)
        | none =>
          match store.getAccounts accountsList with
          | .error err => .error ("didn't get accounts: " ++ err)
          | .ok validAccounts => scanRows validAccounts store.rows []

/-- Go `loadTweets` (`fetcher.go`): the same steps for the last 24 hours. -/
def loadTweets (store : DayStore) (accountsList : String) : Except String (List Tweet) :=
  match store.envErr with
  | some err => .error ("error loading .env file: " ++ err)
  | none =>
    if store.databaseUrl = "" then
      .error "DATABASE_POOL_URL environment variable not set"
    else
      match store.connectErr with
      | some err => .error ("in client, failed to connect to database: " ++ err)
      | none =>
        match store.queryErr with
        | some err => .error ("failed to query tweets: " ++ err)
        | none =>
          match store.getAccounts accountsList with
          | .error err => .error ("didn't get accounts: " ++ err)
          | .ok validAccounts => scanRows validAccounts store.rows []

/-! ## `summarizeTweetsForAccount` -/

/-- The text `combinedText` that `summarizeTweetsForAccount` hands to `Summarize`
(lines 108-115). -/
def combinedText (tweets : List Tweet) (account : String) (date : String) : String :=
  let tweetTexts := tweets.map (fun tweet => "- " ++ tweet.Text)
  "Twitter activity for @" ++ account ++ " on " ++ date
    ++ " (" ++ toString tweets.length ++ " tweets):\n\n" ++ "\n".intercalate tweetTexts

/-- Go `summarizeTweetsForAccount`. -/
def summarizeTweetsForAccount (env : LLMEnv) (tweets : List Tweet)
    (account : String) (date : String) : String :=
  if tweets.length = 0 then
    "No tweets found for @" ++ account ++ " on " ++ date ++ "."
  else
    match env.envErr with
    | some err => "Error loading environment: " ++ err
    | none =>
      if env.openaiToken = "" then
        "@" ++ account ++ " posted " ++ toString tweets.length ++ " tweets on " ++ date
          ++ ". OpenAI API key not configured for detailed analysis."
      else
        match env.Summarize (utf8 (combinedText tweets account date)) env.openaiToken with
        | .error err =>
          "@" ++ account ++ " posted " ++ toString tweets.length ++ " tweets on " ++ date
            ++ ". LLM analysis failed: " ++ err
        | .ok summary =>
          "@" ++ account ++ " Activity Summary for " ++ date ++ ":\n\n" ++ summary

/-! ## `generateDailyReport` -/

/-- The grouping loop of `generateDailyReport` (lines 188-191):
`accountTweets[tweet.Username] = append(accountTweets[tweet.Username], tweet)`. -/
def groupByUsername (tweets : List Tweet) : GoMap (List Tweet) :=
  tweets.foldl
    (fun accountTweets tweet =>
      accountTweets.set tweet.Username (accountTweets.get [] tweet.Username ++ [tweet]))
    []

/-- The loop `for account, userTweets := range accountTweets` (lines 195-207),
visiting the keys in the order `order`. -/
def buildAccountReports (env : LLMEnv) (accountTweets : GoMap (List Tweet))
    (order : List String) (date : String) : List AccountReport :=
  order.map fun account =>
    let userTweets := accountTweets.get [] account
    { Username := account
      TweetCount := userTweets.length
      Summary := summarizeTweetsForAccount env userTweets account date
      Tweets := userTweets }

/-- Go `generateDailyReport`; `order` is the order in which `range accountTweets`
visits the accounts. -/
def generateDailyReport (store : DayStore) (env : LLMEnv) (order : List String)
    (accountsList : String) (targetDate : Time) : Except String DailyReport :=
  match loadTweetsForDay store accountsList targetDate with
  | .error err =>
    .error ("failed to load tweets for " ++ targetDate.Format ++ ": " ++ err)
  | .ok tweets =>
    let accountTweets := groupByUsername tweets
    let accountReports := buildAccountReports env accountTweets order targetDate.Format
    .ok { Date := targetDate.Format
          TotalTweets := tweets.length
          AccountReports := accountReports }

/-! ## `generateSimpleOverallSummary` -/

/-- The local variables `totalTweets`, `allAccounts` and `activeDays` of
`generateSimpleOverallSummary` (lines 340-342). -/
structure Stats where
  totalTweets : Int
  allAccounts : GoMap Int
  activeDays : GoMap Int
deriving DecidableEq, Repr

/-- The body of the inner aggregation loop (lines 348-349):
`allAccounts[u] += accountReport.TweetCount; activeDays[u]++`. -/
def aggregateAccount (s : Stats) (accountReport : AccountReport) : Stats :=
  { s with
    allAccounts := s.allAccounts.set accountReport.Username
      (s.allAccounts.get 0 accountReport.Username + accountReport.TweetCount)
    activeDays := s.activeDays.set accountReport.Username
      (s.activeDays.get 0 accountReport.Username + 1) }

/-- The body of the outer aggregation loop (lines 345-350). -/
def aggregateReport (s : Stats) (report : DailyReport) : Stats :=
  report.AccountReports.foldl aggregateAccount
    { s with totalTweets := s.totalTweets + report.TotalTweets }

/-- The aggregation loop of `generateSimpleOverallSummary` (lines 340-351). -/
def aggregateStats (dailyReports : List DailyReport) : Stats :=
  dailyReports.foldl aggregateReport ⟨0, [], []⟩

/-- The local type `accountActivity` of `generateSimpleOverallSummary`. -/
structure accountActivity where
  name : String
  tweets : Int
  days : Int
deriving DecidableEq, Repr

/-- The loop `for account, tweetCount := range allAccounts` (lines 368-375), visiting
the keys in the order `order`. -/
def buildActivities (s : Stats) (order : List String) : List accountActivity :=
  order.map fun account =>
    { name := account
      tweets := s.allAccounts.get 0 account
      days := s.activeDays.get 0 account }

/-- The exchange `activities[i], activities[j] = activities[j], activities[i]`
(line 381). -/
def swapEntries (activities : List accountActivity) (i j : Nat) : List accountActivity :=
  match activities[i]?, activities[j]? with
  | some ai, some aj => (activities.set i aj).set j ai
  | _, _ => activities

/-- The inner loop `for j := i + 1; j < len(activities); j++` (lines 379-383) from
index `j` on, with `n` iterations to go.  The loop bounds keep `i` and `j` in range,
so the last case is never reached. -/
def innerLoopAt (i : Nat) : Nat → Nat → List accountActivity → List accountActivity
  | 0, _, activities => activities
  | n + 1, j, activities =>
    match activities[i]?, activities[j]? with
    | some ai, some aj =>
      if aj.tweets > ai.tweets then
        innerLoopAt i n (j + 1) (swapEntries activities i j)
      else
        innerLoopAt i n (j + 1) activities
    | _, _ => activities

/-- The outer loop `for i := 0; i < len(activities)-1; i++` (lines 378-384) from
index `i` on, with `n` iterations to go. -/
def outerLoopAt : Nat → Nat → List accountActivity → List accountActivity
  | 0, _, activities => activities
  | n + 1, i, activities =>
    outerLoopAt n (i + 1) (innerLoopAt i (activities.length - (i + 1)) (i + 1) activities)

/-- The sorting loops of lines 377-384 ("Simple sorting by tweet count
(descending)"). -/
def sortActivities (activities : List accountActivity) : List accountActivity :=
  outerLoopAt (activities.length - 1) 0 activities

/-- The value of `activities` after the sorting loops (line 385): the ranked list. -/
def rankedActivities (order : List String) (dailyReports : List DailyReport) :
    List accountActivity :=
  sortActivities (buildActivities (aggregateStats dailyReports) order)

/-- The loop that prints the ranked list (lines 386-390); `i` is the index of the
first entry and `fmtAvg a b` is the text that `%.1f` prints for
`float64(a) / float64(b)`. -/
def renderActivities (fmtAvg : Int → Int → String) :
    Nat → List accountActivity → String
  | _, [] => ""
  | i, activity :: rest =>
    "  " ++ toString (i + 1) ++ ". @" ++ activity.name ++ ": " ++ toString activity.tweets
      ++ " tweets across " ++ toString activity.days ++ " days (avg "
      ++ fmtAvg activity.tweets activity.days ++ " tweets/day)\n"
      ++ renderActivities fmtAvg (i + 1) rest

/-- The inner loop of the daily activity pattern (lines 397-400). -/
def renderDayAccounts : List AccountReport → String
  | [] => ""
  | accountReport :: rest =>
    "    - @" ++ accountReport.Username ++ ": " ++ toString accountReport.TweetCount
      ++ " tweets\n" ++ renderDayAccounts rest

/-- The loop of the daily activity pattern (lines 394-401). -/
def renderDailyPattern : List DailyReport → String
  | [] => ""
  | report :: rest =>
    "  " ++ report.Date ++ ": " ++ toString report.TotalTweets ++ " total tweets\n"
      ++ renderDayAccounts report.AccountReports ++ renderDailyPattern rest

/-- The loop that looks for the most active day (lines 417-424), started from
`maxDayTweets = 0`, `maxDay = ""`; the result is `(maxDay, maxDayTweets)`. -/
def mostActiveDay (dailyReports : List DailyReport) : String × Int :=
  dailyReports.foldl
    (fun m report => if report.TotalTweets > m.2 then (report.Date, report.TotalTweets) else m)
    ("", 0)

/-- The line about the most active account (lines 410-414). -/
def mostActiveAccountLine : List accountActivity → String
  | [] => ""
  | topAccount :: _ =>
    "  - Most active account: @" ++ topAccount.name ++ " with " ++ toString topAccount.tweets
      ++ " tweets\n"

/-- The line about the most active day (lines 425-427). -/
def mostActiveDayLine (dailyReports : List DailyReport) : String :=
  let m := mostActiveDay dailyReports
  if m.1 ≠ "" then
    "  - Most active day: " ++ m.1 ++ " with " ++ toString m.2 ++ " tweets\n"
  else
    ""

/-- The "Key Observations" of lines 404-428. -/
def keyObservations (fmtAvg : Int → Int → String) (totalTweets : Int)
    (dailyReports : List DailyReport) (activities : List accountActivity) : String :=
  if totalTweets = 0 then
    "  - No tweet activity detected in the analyzed period\n"
  else
    "  - Average tweets per day: " ++ fmtAvg totalTweets dailyReports.length ++ "\n"
      ++ mostActiveAccountLine activities ++ mostActiveDayLine dailyReports

/-- Go `generateSimpleOverallSummary`; `order` is the order in which
`range allAccounts` visits the accounts.  The result is `none` when
`dailyReports[0]` or `dailyReports[len(dailyReports)-1]` is out of range. -/
def generateSimpleOverallSummary (fmtAvg : Int → Int → String) (order : List String)
    (dailyReports : List DailyReport) : Option String :=
  let stats := aggregateStats dailyReports
  match dailyReports[0]?, dailyReports[dailyReports.length - 1]? with
  | some first, some last =>
    let activities := rankedActivities order dailyReports
    some ("MULTI-DAY ACTIVITY SUMMARY\n" ++ "==========================\n\n"
      ++ "Period: " ++ first.Date ++ " to " ++ last.Date ++ " ("
      ++ toString dailyReports.length ++ " days)\n"
      ++ "Total tweets analyzed: " ++ toString stats.totalTweets ++ "\n"
      ++ "Unique accounts: " ++ toString stats.allAccounts.length ++ "\n\n"
      ++ "Account Activity Breakdown:\n"
      ++ renderActivities fmtAvg 0 activities
      ++ "\nDaily Activity Pattern:\n"
      ++ renderDailyPattern dailyReports
      ++ "\nKey Observations:\n"
      ++ keyObservations fmtAvg stats.totalTweets dailyReports activities)
  | _, _ => none

/-! ## `generateOverallSummary` -/

/-- Go `min` (line 434). -/
def minInt (a b : Int) : Int :=
  if a < b then a else b

/-- The local variables of the digest loop of `generateOverallSummary`
(lines 272-279). -/
structure Digest where
  analysisText : Bytes
  totalTweets : Int
  allAccounts : GoMap Int
  activeDays : GoMap Int

/-- The sample tweets of one account report (lines 295-301): each text longer than
100 bytes is cut to its first 100 bytes followed by `...`. -/
def sampleTweets (tweets : List Tweet) (sampleCount : Nat) : Bytes :=
  ((tweets.take sampleCount).map fun t =>
    let tweet := if (utf8 t.Text).length > 100 then (utf8 t.Text).take 100 ++ utf8 "..."
      else utf8 t.Text
    utf8 "    - " ++ tweet ++ utf8 "\n").flatten

/-- The body of the inner digest loop (lines 286-302). -/
def digestAccount (d : Digest) (accountReport : AccountReport) : Digest :=
  { analysisText := d.analysisText
      ++ utf8 ("  @" ++ accountReport.Username ++ ": " ++ toString accountReport.TweetCount
        ++ " tweets\n")
      ++ (if accountReport.Tweets.length > 0 then
            utf8 "    Sample tweets:\n"
              ++ sampleTweets accountReport.Tweets (minInt 3 accountReport.Tweets.length).toNat
          else [])
    totalTweets := d.totalTweets
    allAccounts := d.allAccounts.set accountReport.Username
      (d.allAccounts.get 0 accountReport.Username + accountReport.TweetCount)
    activeDays := d.activeDays.set accountReport.Username
      (d.activeDays.get 0 accountReport.Username + 1) }

/-- The body of the outer digest loop (lines 282-304). -/
def digestReport (d : Digest) (report : DailyReport) : Digest :=
  let d1 : Digest :=
    { d with
      totalTweets := d.totalTweets + report.TotalTweets
      analysisText := d.analysisText
        ++ utf8 ("Day " ++ report.Date ++ " (" ++ toString report.TotalTweets
          ++ " total tweets):\n") }
  let d2 := report.AccountReports.foldl digestAccount d1
  { d2 with analysisText := d2.analysisText ++ utf8 "\n" }

/-- The digest loop of `generateOverallSummary` (lines 272-305). -/
def buildDigest (dailyReports : List DailyReport) : Digest :=
  dailyReports.foldl digestReport
    { analysisText := utf8 "MULTI-DAY TWITTER ACTIVITY ANALYSIS\n"
        ++ utf8 "=====================================\n\n"
      totalTweets := 0
      allAccounts := []
      activeDays := [] }

/-- The text `analysisText` that `generateOverallSummary` hands to `Summarize`
(lines 272-312); `none` when `dailyReports[0]` or `dailyReports[len(dailyReports)-1]`
is out of range. -/
def overallAnalysisText (dailyReports : List DailyReport) : Option Bytes :=
  let d := buildDigest dailyReports
  match dailyReports[0]?, dailyReports[dailyReports.length - 1]? with
  | some first, some last =>
    some (d.analysisText
      ++ utf8 ("\nPeriod: " ++ first.Date ++ " to " ++ last.Date ++ " ("
        ++ toString dailyReports.length ++ " days)\n")
      ++ utf8 ("Total tweets: " ++ toString d.totalTweets ++ "\n")
      ++ utf8 ("Unique accounts: " ++ toString d.allAccounts.length ++ "\n\n"))
  | _, _ => none

/-- Go `generateOverallSummary`; `order` is the iteration order handed to
`generateSimpleOverallSummary`. -/
def generateOverallSummary (env : LLMEnv) (fmtAvg : Int → Int → String)
    (order : List String) (dailyReports : List DailyReport) : Option String :=
  if dailyReports.length = 0 then
    some "No daily reports available for summary."
  else
    match env.envErr with
    | some err => some ("Error loading environment: " ++ err)
    | none =>
      if env.openaiToken = "" then
        generateSimpleOverallSummary fmtAvg order dailyReports
      else
        match overallAnalysisText dailyReports with
        | none => none
        | some analysisText =>
          match env.Summarize analysisText env.openaiToken with
          | .error err =>
            match generateSimpleOverallSummary fmtAvg order dailyReports with
            | some simple =>
              some ("MULTI-DAY ACTIVITY SUMMARY\n==========================\n\n"
                ++ "LLM analysis failed: " ++ err
                ++ "\n\nFalling back to simple summary:\n\n" ++ simple)
            | none => none
          | .ok summary => some summary

/-! ## `generateWeeklyReport` -/

/-- The outside world of one run: the store outcome for each calendar day, the order
in which `range accountTweets` visits the accounts on each day, the language-model
side, the order in which `range allAccounts` visits the accounts, and the text that
`%.1f` prints for a quotient of two integers converted to `float64`. -/
structure World where
  store : Time → DayStore
  accountOrder : Time → List String
  llm : LLMEnv
  summaryOrder : List String
  fmtAvg : Int → Int → String

/-- The body of the day loop of `generateWeeklyReport` (lines 224-234) for day `i`;
the state is `(dailyReports, totalTweets)`.  A day whose report fails is skipped
(`continue`). -/
def weeklyStep (w : World) (accountsList : String) (startDate : Time)
    (st : List DailyReport × Int) (i : Nat) : List DailyReport × Int :=
  let currentDate := startDate.AddDate i
  match generateDailyReport (w.store currentDate) w.llm (w.accountOrder currentDate)
      accountsList currentDate with
  | .error _ => st
  | .ok dailyReport => (st.1 ++ [dailyReport], st.2 + dailyReport.TotalTweets)

/-- Go `generateWeeklyReport`.  The loop `for i := 0; i < days; i++` runs over
`0, ..., days - 1` (not at all when `days ≤ 0`).  The outer `Option` is `none` when
the call of `generateOverallSummary` panics. -/
def generateWeeklyReport (w : World) (accountsList : String) (startDate : Time)
    (days : Int) : Option (Except String WeeklyReport) :=
  let st := (List.range days.toNat).foldl (weeklyStep w accountsList startDate) ([], 0)
  match generateOverallSummary w.llm w.fmtAvg w.summaryOrder st.1 with
  | none => none
  | some overallSummary =>
    let endDate := startDate.AddDate (days - 1)
    some (.ok { StartDate := startDate.Format
                EndDate := endDate.Format
                DailyReports := st.1
                OverallSummary := overallSummary
                TotalTweets := st.2 })

/-- The result of `generateDailyReport` for day `i` of a weekly run (the call of
line 227 in iteration `i`). -/
def reportOfDay (w : World) (accountsList : String) (startDate : Time) (i : Nat) :
    Except String DailyReport :=
  generateDailyReport (w.store (startDate.AddDate i)) w.llm
    (w.accountOrder (startDate.AddDate i)) accountsList (startDate.AddDate i)

/-! ## `getAccounts` -/

/-- Go `unicode.IsSpace`: the characters that `strings.TrimSpace` removes. -/
def isSpace (c : Char) : Bool :=
  let n := c.toNat
  n = 9 || n = 10 || n = 11 || n = 12 || n = 13 || n = 32 || n = 0x85 || n = 0xA0
    || n = 0x1680 || (0x2000 ≤ n && n ≤ 0x200A) || n = 0x2028 || n = 0x2029
    || n = 0x202F || n = 0x205F || n = 0x3000

/-- Go `strings.TrimSpace` on the characters of a string: leading and trailing
white space removed. -/
def trimChars (s : List Char) : List Char :=
  (s.dropWhile isSpace).rdropWhile isSpace

/-- Go `strings.TrimSpace`. -/
def TrimSpace (s : String) : String :=
  ⟨trimChars s.data⟩

/-- Go `strings.Split(s, "\n")` on the characters of a string: the pieces between the
line feeds, one more than there are line feeds. -/
def splitChars : List Char → List (List Char)
  | [] => [[]]
  | c :: cs =>
    if c = Char.ofNat 10 then
      [] :: splitChars cs
    else
      match splitChars cs with
      | [] => [[c]]
      | line :: lines => (c :: line) :: lines

/-- Go `strings.Split(s, "\n")`. -/
def SplitLines (s : String) : List String :=
  (splitChars s.data).map String.mk

/-- Go `strings.HasPrefix(account, "#")`. -/
def startsWithHash (account : String) : Bool :=
  account.data.head? = some '#'

/-- The condition of line 28 of `fetcher.go` on a trimmed line:
`account != "" && !strings.HasPrefix(account, "#")`. -/
def isValidAccount (account : String) : Bool :=
  account ≠ "" && !startsWithHash account

/-- Go `getAccounts` (`fetcher.go` lines 16-33); `readAccountsFile accountsList` is the
outcome of `os.ReadFile` on the file `./data/<accountsList>.txt`. -/
def getAccounts (readAccountsFile : String → Except String String)
    (accountsList : String) : Except String (List String) :=
  match readAccountsFile accountsList with
  | .error err => .error ("error reading accounts file: " ++ err)
  | .ok accountsData =>
    let accounts := SplitLines (TrimSpace accountsData)
    .ok (accounts.foldl
      (fun validAccounts account =>
        if isValidAccount (TrimSpace account) then
          validAccounts ++ [TrimSpace account]
        else
          validAccounts)
      [])

/-- An allow-list file with comments, blank lines and padded lines. -/
def exampleAccountsFile : String :=
  "\n# AI accounts\nalice\n  # indented comment\n\n  bob \r\n#carol\nDave Smith\t\n\n"

/-! ## Notions used to state and prove the properties of the ranking -/

/-- The usernames of all account reports of all daily reports, in the order in which
the aggregation loop meets them. -/
def allUsernames (dailyReports : List DailyReport) : List String :=
  (dailyReports.map fun r => r.AccountReports.map fun a => a.Username).flatten

/-- The window total of account `u`: the sum of `TweetCount` over the account
reports of `u` in all daily reports. -/
def windowTotal (dailyReports : List DailyReport) (u : String) : Int :=
  (dailyReports.map fun r =>
    ((r.AccountReports.filter fun a => a.Username = u).map fun a => a.TweetCount).sum).sum

/-- The number of account reports of account `u` in all daily reports. -/
def reportCount (dailyReports : List DailyReport) (u : String) : Int :=
  (dailyReports.map fun r =>
    (((r.AccountReports.filter fun a => a.Username = u).length : Nat) : Int)).sum

/-- Account `u` has at least one post on the day of `report`. -/
def hasPostOn (u : String) (report : DailyReport) : Bool :=
  report.AccountReports.any fun a => decide (a.Username = u) && decide (1 ≤ a.TweetCount)

/-- The number of days (daily reports of the window) on which account `u` has at
least one post. -/
def activeDayCount (dailyReports : List DailyReport) (u : String) : Int :=
  ((dailyReports.filter (hasPostOn u)).length : Nat)

/-- The inner loop for one `i`, described on lists: the first argument is the current
`activities[i]`, the list is `activities[j:]`; returned are the final `activities[i]`
and the final `activities[i+1:]`.  It is shown below to agree with `innerLoopAt`. -/
def innerLoop (ai : accountActivity) :
    List accountActivity → accountActivity × List accountActivity
  | [] => (ai, [])
  | aj :: rest =>
    if aj.tweets > ai.tweets then
      let r := innerLoop aj rest
      (r.1, ai :: r.2)
    else
      let r := innerLoop ai rest
      (r.1, aj :: r.2)

/-- The outer loop, described on lists: the first argument counts the iterations
that remain, the list is `activities[i:]`.  It is shown below to agree with
`outerLoopAt`. -/
def outerLoop : Nat → List accountActivity → List accountActivity
  | 0, activities => activities
  | _ + 1, [] => []
  | n + 1, ai :: rest =>
    let r := innerLoop ai rest
    r.1 :: outerLoop n r.2

/-! ## Example inputs -/

/-- A tweet with the given id and author. -/
def exampleTweet (id : String) (username : String) : Tweet :=
  { ID := id, Text := "post " ++ id, CreatedAt := "2024-03-01 10:00:00", Username := username }

/-- Five rows of one day: two posts of `alice` and three of `bob`. -/
def exampleRows : List Tweet :=
  [exampleTweet "1" "alice", exampleTweet "2" "bob", exampleTweet "3" "bob",
   exampleTweet "4" "alice", exampleTweet "5" "bob"]

/-- A day on which every external step succeeds, the allow-list is `allow` and the
store delivers `rows`. -/
def exampleStore (allow : List String) (rows : List Tweet) : DayStore :=
  { envErr := none
    databaseUrl := "postgres://store"
    connectErr := none
    queryErr := none
    getAccounts := fun _ => .ok allow
    rows := rows.map Except.ok }

/-- A day on which the query fails. -/
def failingStore : DayStore :=
  { envErr := none
    databaseUrl := "postgres://store"
    connectErr := none
    queryErr := some "connection reset"
    getAccounts := fun _ => .ok ["alice"]
    rows := [] }

/-- A run without `OPENAI_API_KEY`. -/
def noTokenLLM : LLMEnv :=
  { envErr := none, openaiToken := "", Summarize := fun _ _ => .error "not called" }

/-- A run with a token in which every `Summarize` call returns `answer`. -/
def answeringLLM (answer : Except String String) : LLMEnv :=
  { envErr := none, openaiToken := "sk-test", Summarize := fun _ _ => answer }

/-- Rows whose usernames differ from `alice` in case or altogether. -/
def caseRows : List Tweet :=
  [exampleTweet "1" "alice", exampleTweet "2" "Alice", exampleTweet "3" "bob",
   exampleTweet "4" "alice"]

/-- Go `time.UTC`: offset 0 at every instant. -/
def utcLocation : Location :=
  fun _ => ⟨0, -9223372036854775808, 9223372036854775807⟩

/-- Midnight UTC of the calendar day `day` (days from 1970-01-01). -/
def utcDay (day : Int) : Time :=
  ⟨day * 86400, utcLocation⟩

/-- A week in which the store fails on the days listed in `failing` (indices from
`start`) and delivers `exampleRows` on the others. -/
def exampleWorld (start : Time) (failing : List Int) : World :=
  { store := fun d =>
      if (d.day - start.day) ∈ failing then failingStore else exampleStore ["alice"] exampleRows
    accountOrder := fun _ => ["alice"]
    llm := noTokenLLM
    summaryOrder := ["alice"]
    fmtAvg := fun _ _ => "?" }

/-- A daily report as `generateDailyReport` builds it without a token: the given
date and, for each `(username, count)` pair, an account report with `count` posts. -/
def exampleDay (date : String) (accounts : List (String × Nat)) : DailyReport :=
  { Date := date
    TotalTweets := ((accounts.map Prod.snd).sum : Nat)
    AccountReports := accounts.map fun a =>
      let tweets := (List.range a.2).map fun i => exampleTweet (toString i) a.1
      { Username := a.1
        TweetCount := tweets.length
        Summary := summarizeTweetsForAccount noTokenLLM tweets a.1 date
        Tweets := tweets } }

/-! ## Lemmas on Go maps -/

theorem GoMap.get_set {V : Type} (zero : V) (m : GoMap V) (k k' : String) (v : V) :
    GoMap.get zero (GoMap.set m k v) k' = if k = k' then v else GoMap.get zero m k' := by
  induction m with
  | nil => simp [GoMap.set, GoMap.get]
  | cons e m ih =>
    obtain ⟨k0, v0⟩ := e
    by_cases h : k0 = k
    · subst h
      by_cases h' : k0 = k' <;> simp [GoMap.set, GoMap.get, h']
    · by_cases h' : k0 = k'
      · subst h'
        have : ¬ k = k0 := fun e => h e.symm
        simp [GoMap.set, GoMap.get, h, this]
      · simp [GoMap.set, GoMap.get, h, h', ih]

theorem GoMap.keys_set {V : Type} (m : GoMap V) (k : String) (v : V) :
    (GoMap.set m k v).keys = if k ∈ m.keys then m.keys else m.keys ++ [k] := by
  induction m with
  | nil => simp [GoMap.set, GoMap.keys]
  | cons e m ih =>
    obtain ⟨k0, v0⟩ := e
    by_cases h : k0 = k
    · subst h
      simp [GoMap.set, GoMap.keys]
    · have h' : ¬ k = k0 := fun e => h e.symm
      simp only [GoMap.keys] at ih
      by_cases hm : k ∈ List.map Prod.fst m
      · simp [GoMap.set, GoMap.keys, h, h', hm, ih]
      · simp [GoMap.set, GoMap.keys, h, h', hm, ih]

theorem GoMap.mem_keys_set {V : Type} (m : GoMap V) (k k' : String) (v : V) :
    k' ∈ (GoMap.set m k v).keys ↔ k' = k ∨ k' ∈ m.keys := by
  rw [GoMap.keys_set]
  by_cases h : k ∈ m.keys
  · simp only [h, if_true]
    constructor
    · exact Or.inr
    · rintro (rfl | h') <;> assumption
  · simp only [h, if_false, List.mem_append, List.mem_singleton]
    tauto

theorem GoMap.nodup_keys_set {V : Type} (m : GoMap V) (k : String) (v : V)
    (h : m.keys.Nodup) : (GoMap.set m k v).keys.Nodup := by
  rw [GoMap.keys_set]
  by_cases hk : k ∈ m.keys
  · simpa [hk] using h
  · simp only [hk, if_false]
    rw [List.nodup_append]
    refine ⟨h, List.nodup_singleton k, ?_⟩
    intro a ha hb
    simp at hb
    subst hb
    exact hk ha

/-- On a map with distinct keys, looking up the key of an entry gives its value. -/
theorem GoMap.map_get_keys {V W : Type} [AddCommMonoid W] (zero : V) (f : V → W)
    (m : GoMap V) (h : m.keys.Nodup) :
    (m.keys.map (fun k => f (GoMap.get zero m k))).sum = (m.map (fun e => f e.2)).sum := by
  induction m with
  | nil => simp [GoMap.keys]
  | cons e m ih =>
    obtain ⟨k0, v0⟩ := e
    simp only [GoMap.keys, List.map_cons, List.nodup_cons] at h
    have ih' := ih h.2
    simp only [GoMap.keys, List.map_cons, List.sum_cons, GoMap.get, if_true, List.map_map] at ih' ⊢
    congr 1
    rw [← ih']
    congr 1
    apply List.map_congr_left
    intro e he
    have : k0 ≠ e.1 := by
      intro hk
      apply h.1
      rw [hk]
      exact List.mem_map_of_mem _ he
    simp [this]

/-! ## The daily report -/

/-- Appending a tweet to the group of its author adds one to the number of grouped
tweets. -/
theorem sum_lengths_set_append (m : GoMap (List Tweet)) (k : String) (t : Tweet) :
    ((GoMap.set m k (GoMap.get [] m k ++ [t])).map (fun e => (e.2.length : Int))).sum
      = (m.map (fun e => (e.2.length : Int))).sum + 1 := by
  induction m with
  | nil => simp [GoMap.set, GoMap.get]
  | cons e m ih =>
    obtain ⟨k0, v0⟩ := e
    by_cases h : k0 = k
    · simp [GoMap.set, GoMap.get, h]
      ring
    · simp [GoMap.set, GoMap.get, h, ih]
      ring

/-- The grouping loop, started from any map with distinct keys. -/
theorem groupLoop_invariant (tweets : List Tweet) (m : GoMap (List Tweet))
    (h : m.keys.Nodup) :
    let m' := tweets.foldl
      (fun accountTweets tweet =>
        accountTweets.set tweet.Username (accountTweets.get [] tweet.Username ++ [tweet])) m
    m'.keys.Nodup ∧
      (m'.map (fun e => (e.2.length : Int))).sum
        = (m.map (fun e => (e.2.length : Int))).sum + tweets.length := by
  induction tweets generalizing m with
  | nil => simp [h]
  | cons t rest ih =>
    have h1 := GoMap.nodup_keys_set m t.Username (GoMap.get [] m t.Username ++ [t]) h
    have h2 := ih _ h1
    simp only [List.foldl_cons]
    refine ⟨h2.1, ?_⟩
    rw [h2.2, sum_lengths_set_append]
    simp only [List.length_cons, Nat.cast_add, Nat.cast_one]
    ring

theorem groupByUsername_nodup (tweets : List Tweet) : (groupByUsername tweets).keys.Nodup :=
  (groupLoop_invariant tweets [] (by simp [GoMap.keys])).1

theorem groupByUsername_sum_lengths (tweets : List Tweet) :
    ((groupByUsername tweets).map (fun e => (e.2.length : Int))).sum = tweets.length := by
  have h := (groupLoop_invariant tweets [] (by simp [GoMap.keys])).2
  simpa [groupByUsername] using h

/-- The tweet counts of the account reports add up to the number of grouped tweets,
whatever the order of the map iteration. -/
theorem sum_tweetCount_buildAccountReports (env : LLMEnv) (tweets : List Tweet)
    (order : List String) (date : String)
    (horder : order.Perm (groupByUsername tweets).keys) :
    ((buildAccountReports env (groupByUsername tweets) order date).map
      (fun r => r.TweetCount)).sum = tweets.length := by
  have h1 : (buildAccountReports env (groupByUsername tweets) order date).map
      (fun r => r.TweetCount)
      = order.map (fun k => ((GoMap.get [] (groupByUsername tweets) k).length : Int)) := by
    simp [buildAccountReports]
  rw [h1, (horder.map _).sum_eq,
    GoMap.map_get_keys [] (fun v : List Tweet => (v.length : Int)) _
      (groupByUsername_nodup tweets)]
  exact groupByUsername_sum_lengths tweets

/-- C1: whenever `loadTweetsForDay` returns a list of filtered posts,
`generateDailyReport` returns a report whose `TotalTweets` is the sum of `TweetCount`
over its `AccountReports` and is the number of filtered posts, for every outcome of
the per-account summaries and every order of the map iteration. -/
theorem dailyReport_total_eq_sum_tweetCount (store : DayStore) (env : LLMEnv)
    (order : List String) (accountsList : String) (targetDate : Time)
    (tweets : List Tweet)
    (hload : loadTweetsForDay store accountsList targetDate = .ok tweets)
    (horder : order.Perm (groupByUsername tweets).keys) :
    ∃ report, generateDailyReport store env order accountsList targetDate = .ok report ∧
      report.TotalTweets = (report.AccountReports.map (fun r => r.TweetCount)).sum ∧
      report.TotalTweets = tweets.length := by
  refine ⟨_, by simp only [generateDailyReport, hload]; rfl, ?_, rfl⟩
  simp only
  rw [sum_tweetCount_buildAccountReports env tweets order _ horder]

/-- Witness for C1: the store delivers two posts of `alice` and three of `bob`, the
allow-list is `alice`; the report counts 2 posts. -/
theorem dailyReport_total_eq_sum_tweetCount_witness :
    loadTweetsForDay (exampleStore ["alice"] exampleRows) "ai-og" (utcDay 19783)
        = .ok [exampleTweet "1" "alice", exampleTweet "4" "alice"] ∧
      List.Perm ["alice"]
        (groupByUsername [exampleTweet "1" "alice", exampleTweet "4" "alice"]).keys ∧
      ∃ report, generateDailyReport (exampleStore ["alice"] exampleRows) noTokenLLM ["alice"]
          "ai-og" (utcDay 19783) = .ok report ∧
        report.TotalTweets = (report.AccountReports.map (fun r => r.TweetCount)).sum ∧
        report.TotalTweets = ([exampleTweet "1" "alice", exampleTweet "4" "alice"].length : Int) :=
  ⟨by rfl, by decide,
    dailyReport_total_eq_sum_tweetCount (exampleStore ["alice"] exampleRows) noTokenLLM ["alice"]
      "ai-og" (utcDay 19783) [exampleTweet "1" "alice", exampleTweet "4" "alice"] (by rfl) (by decide)⟩

/-! ## The account filter -/

/-- On rows that all scan, the row loop appends the rows whose author is in the
allow-list, in their order. -/
theorem scanRows_ok (validAccounts : List String) (rows : List Tweet) (acc : List Tweet) :
    scanRows validAccounts (rows.map Except.ok) acc
      = .ok (acc ++ rows.filter (fun t => decide (t.Username ∈ validAccounts))) := by
  induction rows generalizing acc with
  | nil => simp [scanRows]
  | cons t rest ih =>
    by_cases h : t.Username ∈ validAccounts
    · simp [scanRows, h, ih]
    · simp [scanRows, h, ih]

theorem loadTweetsForDay_ok (store : DayStore) (accountsList : String) (targetDate : Time)
    (validAccounts : List String) (rows : List Tweet)
    (henv : store.envErr = none) (hurl : store.databaseUrl ≠ "") (hconn : store.connectErr = none)
    (hquery : store.queryErr = none) (hacc : store.getAccounts accountsList = .ok validAccounts)
    (hrows : store.rows = rows.map Except.ok) :
    loadTweetsForDay store accountsList targetDate
      = .ok (rows.filter (fun t => decide (t.Username ∈ validAccounts))) := by
  simp [loadTweetsForDay, henv, hurl, hconn, hquery, hacc, hrows, scanRows_ok]

theorem loadTweets_ok (store : DayStore) (accountsList : String)
    (validAccounts : List String) (rows : List Tweet)
    (henv : store.envErr = none) (hurl : store.databaseUrl ≠ "") (hconn : store.connectErr = none)
    (hquery : store.queryErr = none) (hacc : store.getAccounts accountsList = .ok validAccounts)
    (hrows : store.rows = rows.map Except.ok) :
    loadTweets store accountsList
      = .ok (rows.filter (fun t => decide (t.Username ∈ validAccounts))) := by
  simp [loadTweets, henv, hurl, hconn, hquery, hacc, hrows, scanRows_ok]

/-- C5: when the external steps succeed, with allow-list `validAccounts` and fetched
rows `rows`, both `loadTweetsForDay` and `loadTweets` return the list `kept` of the
rows whose username is an element of the allow-list (equality of strings, hence
case-sensitive): a post is in `kept` iff it is a fetched row whose username is in the
allow-list, `kept` is `rows` with the other posts removed (order and multiplicity
preserved), and running the same filter over `kept` returns `kept` again. -/
theorem accountFilter_member_order_idempotent (store : DayStore) (accountsList : String)
    (targetDate : Time) (validAccounts : List String) (rows : List Tweet)
    (henv : store.envErr = none) (hurl : store.databaseUrl ≠ "") (hconn : store.connectErr = none)
    (hquery : store.queryErr = none) (hacc : store.getAccounts accountsList = .ok validAccounts)
    (hrows : store.rows = rows.map Except.ok) :
    ∃ kept,
      loadTweetsForDay store accountsList targetDate = .ok kept ∧
      loadTweets store accountsList = .ok kept ∧
      kept = rows.filter (fun t => decide (t.Username ∈ validAccounts)) ∧
      (∀ t, t ∈ kept ↔ t ∈ rows ∧ t.Username ∈ validAccounts) ∧
      kept.Sublist rows ∧
      loadTweetsForDay { store with rows := kept.map Except.ok } accountsList targetDate
        = .ok kept ∧
      loadTweets { store with rows := kept.map Except.ok } accountsList = .ok kept := by
  refine ⟨_, loadTweetsForDay_ok store accountsList targetDate validAccounts rows henv hurl
    hconn hquery hacc hrows, loadTweets_ok store accountsList validAccounts rows henv hurl
    hconn hquery hacc hrows, rfl, ?_, List.filter_sublist _, ?_, ?_⟩
  · intro t
    simp [List.mem_filter]
  · have h := loadTweetsForDay_ok
      { store with
        rows := List.map Except.ok
          (rows.filter (fun t => decide (t.Username ∈ validAccounts))) }
      accountsList targetDate validAccounts
      (rows.filter (fun t => decide (t.Username ∈ validAccounts)))
      henv hurl hconn hquery hacc rfl
    rw [h, List.filter_filter]
    simp
  · have h := loadTweets_ok
      { store with
        rows := List.map Except.ok
          (rows.filter (fun t => decide (t.Username ∈ validAccounts))) }
      accountsList validAccounts
      (rows.filter (fun t => decide (t.Username ∈ validAccounts)))
      henv hurl hconn hquery hacc rfl
    rw [h, List.filter_filter]
    simp

/-- Witness for C5: with allow-list `alice`, the rows of `Alice` and `bob` are
dropped. -/
theorem accountFilter_member_order_idempotent_witness :
    (exampleStore ["alice"] caseRows).envErr = none ∧
      (exampleStore ["alice"] caseRows).databaseUrl ≠ "" ∧
      (exampleStore ["alice"] caseRows).connectErr = none ∧
      (exampleStore ["alice"] caseRows).queryErr = none ∧
      (exampleStore ["alice"] caseRows).getAccounts "ai-og" = .ok ["alice"] ∧
      (exampleStore ["alice"] caseRows).rows = caseRows.map Except.ok ∧
      ∃ kept,
        loadTweetsForDay (exampleStore ["alice"] caseRows) "ai-og" (utcDay 19783) = .ok kept ∧
        loadTweets (exampleStore ["alice"] caseRows) "ai-og" = .ok kept ∧
        kept = caseRows.filter (fun t => decide (t.Username ∈ ["alice"])) ∧
        (∀ t, t ∈ kept ↔ t ∈ caseRows ∧ t.Username ∈ ["alice"]) ∧
        kept.Sublist caseRows ∧
        loadTweetsForDay { exampleStore ["alice"] caseRows with rows := kept.map Except.ok }
          "ai-og" (utcDay 19783) = .ok kept ∧
        loadTweets { exampleStore ["alice"] caseRows with rows := kept.map Except.ok } "ai-og"
          = .ok kept :=
  ⟨rfl, by decide, rfl, rfl, rfl, rfl,
    accountFilter_member_order_idempotent (exampleStore ["alice"] caseRows) "ai-og" (utcDay 19783)
      ["alice"] caseRows rfl (by decide) rfl rfl rfl rfl⟩

/-! ## The weekly report -/

theorem generateSimpleOverallSummary_isSome (fmtAvg : Int → Int → String)
    (order : List String) (dailyReports : List DailyReport) (h : dailyReports ≠ []) :
    ∃ s, generateSimpleOverallSummary fmtAvg order dailyReports = some s := by
  have h0 : 0 < dailyReports.length := List.length_pos.mpr h
  have h1 : dailyReports.length - 1 < dailyReports.length := by omega
  simp only [generateSimpleOverallSummary, List.getElem?_eq_getElem h0,
    List.getElem?_eq_getElem h1]
  exact ⟨_, rfl⟩

theorem overallAnalysisText_isSome (dailyReports : List DailyReport)
    (h : dailyReports ≠ []) : ∃ text, overallAnalysisText dailyReports = some text := by
  have h0 : 0 < dailyReports.length := List.length_pos.mpr h
  have h1 : dailyReports.length - 1 < dailyReports.length := by omega
  simp only [overallAnalysisText, List.getElem?_eq_getElem h0, List.getElem?_eq_getElem h1]
  exact ⟨_, rfl⟩

/-- The guard of `generateOverallSummary` keeps every index in range: it returns a
text for every list of daily reports. -/
theorem generateOverallSummary_isSome (env : LLMEnv) (fmtAvg : Int → Int → String)
    (order : List String) (dailyReports : List DailyReport) :
    ∃ s, generateOverallSummary env fmtAvg order dailyReports = some s := by
  by_cases h : dailyReports = []
  · subst h
    exact ⟨"No daily reports available for summary.", by simp [generateOverallSummary]⟩
  · have hlen : dailyReports.length ≠ 0 := by
      simpa [List.length_eq_zero] using h
    have h0 : 0 < dailyReports.length := List.length_pos.mpr h
    have h1 : dailyReports.length - 1 < dailyReports.length := by omega
    obtain ⟨s, hs⟩ := generateSimpleOverallSummary_isSome fmtAvg order dailyReports h
    obtain ⟨text, htext⟩ := overallAnalysisText_isSome dailyReports h
    simp only [generateOverallSummary, hlen, if_false, htext, hs]
    cases env.envErr with
    | some err => exact ⟨_, rfl⟩
    | none =>
      by_cases ht : env.openaiToken = ""
      · simp [ht]
      · simp only [ht, if_false]
        cases env.Summarize _ env.openaiToken with
        | error err => exact ⟨_, rfl⟩
        | ok summary => exact ⟨_, rfl⟩

/-- The day loop of `generateWeeklyReport`, started from any state: the reports of
the days that succeed are appended in iteration order and their totals are added. -/
theorem weeklyLoop_eq (w : World) (accountsList : String) (startDate : Time)
    (is : List Nat) (st : List DailyReport × Int) :
    is.foldl (weeklyStep w accountsList startDate) st
      = (st.1 ++ is.filterMap (fun i => (reportOfDay w accountsList startDate i).toOption),
         st.2 + ((is.filterMap
           (fun i => (reportOfDay w accountsList startDate i).toOption)).map
             (fun r => r.TotalTweets)).sum) := by
  induction is generalizing st with
  | nil => simp
  | cons i rest ih =>
    rw [List.foldl_cons, ih]
    have hstep : weeklyStep w accountsList startDate st i
        = match reportOfDay w accountsList startDate i with
          | .error _ => st
          | .ok dailyReport => (st.1 ++ [dailyReport], st.2 + dailyReport.TotalTweets) := rfl
    rw [hstep]
    cases hr : reportOfDay w accountsList startDate i with
    | error e => simp [Except.toOption, hr]
    | ok r => simp [Except.toOption, hr, add_assoc]

/-- What `generateWeeklyReport` returns, field by field. -/
theorem generateWeeklyReport_eq (w : World) (accountsList : String) (startDate : Time)
    (days : Int) :
    ∃ overallSummary,
      generateWeeklyReport w accountsList startDate days = some (.ok
        { StartDate := startDate.Format
          EndDate := (startDate.AddDate (days - 1)).Format
          DailyReports := (List.range days.toNat).filterMap
            (fun i => (reportOfDay w accountsList startDate i).toOption)
          OverallSummary := overallSummary
          TotalTweets := (((List.range days.toNat).filterMap
            (fun i => (reportOfDay w accountsList startDate i).toOption)).map
              (fun r => r.TotalTweets)).sum }) := by
  obtain ⟨s, hs⟩ := generateOverallSummary_isSome w.llm w.fmtAvg w.summaryOrder
    ((List.range days.toNat).filterMap
      (fun i => (reportOfDay w accountsList startDate i).toOption))
  refine ⟨s, ?_⟩
  simp only [generateWeeklyReport, weeklyLoop_eq, List.nil_append, zero_add, hs]

/-- C2: for every world (hence every outcome of every day), start date and day count,
`generateWeeklyReport` returns a report whose `TotalTweets` is the sum of
`TotalTweets` over its `DailyReports`; a day that failed has no entry and adds
nothing. -/
theorem weeklyReport_total_eq_sum_daily (w : World) (accountsList : String)
    (startDate : Time) (days : Int) :
    ∃ report, generateWeeklyReport w accountsList startDate days = some (.ok report) ∧
      report.TotalTweets = (report.DailyReports.map (fun r => r.TotalTweets)).sum := by
  obtain ⟨s, hs⟩ := generateWeeklyReport_eq w accountsList startDate days
  exact ⟨_, hs, rfl⟩

/-- C3: `generateWeeklyReport` returns a report and no error for every world;
`DailyReports` is the list of the reports of the days whose `generateDailyReport`
succeeded, in iteration order, the failed days being left out; with `days = 7` and
only day 3 (index 2) failing it has 6 entries. -/
theorem weeklyReport_skips_failed_days (w : World) (accountsList : String)
    (startDate : Time) (days : Int) :
    ∃ report, generateWeeklyReport w accountsList startDate days = some (.ok report) ∧
      report.DailyReports = (List.range days.toNat).filterMap
        (fun i => (reportOfDay w accountsList startDate i).toOption) ∧
      (days = 7 →
        (∀ i, i < 7 → ((reportOfDay w accountsList startDate i).isOk = false ↔ i = 2)) →
        report.DailyReports.length = 6) := by
  obtain ⟨s, hs⟩ := generateWeeklyReport_eq w accountsList startDate days
  refine ⟨_, hs, rfl, ?_⟩
  intro hd hfail
  subst hd
  have key : ∀ i, i < 7 → i ≠ 2 →
      ∃ r, (reportOfDay w accountsList startDate i).toOption = some r := by
    intro i hi hne
    have h := hfail i hi
    cases hr : reportOfDay w accountsList startDate i with
    | error e =>
      rw [hr] at h
      exact absurd (h.mp rfl) hne
    | ok r => exact ⟨r, rfl⟩
  have h2 : (reportOfDay w accountsList startDate 2).toOption = none := by
    have h := (hfail 2 (by omega)).mpr rfl
    cases hr : reportOfDay w accountsList startDate 2 with
    | error e => rfl
    | ok r =>
      rw [hr] at h
      simp [Except.isOk, Except.toBool] at h
  obtain ⟨r0, h0⟩ := key 0 (by omega) (by omega)
  obtain ⟨r1, h1⟩ := key 1 (by omega) (by omega)
  obtain ⟨r3, h3⟩ := key 3 (by omega) (by omega)
  obtain ⟨r4, h4⟩ := key 4 (by omega) (by omega)
  obtain ⟨r5, h5⟩ := key 5 (by omega) (by omega)
  obtain ⟨r6, h6⟩ := key 6 (by omega) (by omega)
  have hr : List.range (7 : Int).toNat = [0, 1, 2, 3, 4, 5, 6] := by decide
  show (List.filterMap (fun i => (reportOfDay w accountsList startDate i).toOption)
    (List.range (7 : Int).toNat)).length = 6
  rw [hr]
  simp [List.filterMap_cons, h0, h1, h2, h3, h4, h5, h6]

/-- Witness for C3: seven days from 2024-03-01, the store failing on the third. -/
theorem weeklyReport_skips_failed_days_witness :
    (7 : Int) = 7 ∧
      (∀ i, i < 7 →
        ((reportOfDay (exampleWorld (utcDay 19783) [2]) "ai-og" (utcDay 19783) i).isOk = false ↔ i = 2)) ∧
      ∃ report,
        generateWeeklyReport (exampleWorld (utcDay 19783) [2]) "ai-og" (utcDay 19783) 7
          = some (.ok report) ∧
        report.DailyReports.length = 6 := by
  have hyp : ∀ i, i < 7 →
      ((reportOfDay (exampleWorld (utcDay 19783) [2]) "ai-og" (utcDay 19783) i).isOk = false ↔ i = 2) := by
    decide
  obtain ⟨report, h1, _, h3⟩ :=
    weeklyReport_skips_failed_days (exampleWorld (utcDay 19783) [2]) "ai-og" (utcDay 19783) 7
  exact ⟨rfl, hyp, report, h1, h3 rfl hyp⟩

/-- C9: with a non-empty post list, a loaded environment and a configured token, when
the `Summarize` call returns the error `err`, `summarizeTweetsForAccount` returns a
summary (it has no error result): the sentence `@<account> posted <n> tweets on
<date>.`, which is the sentence that opens the summary emitted when no token is
configured, followed by `LLM analysis failed: ` and the description of the error. -/
theorem summarizeTweetsForAccount_llm_failure (env : LLMEnv) (tweets : List Tweet)
    (account date err : String)
    (hne : tweets ≠ []) (henv : env.envErr = none) (htoken : env.openaiToken ≠ "")
    (hfail : env.Summarize (utf8 (combinedText tweets account date)) env.openaiToken
      = .error err) :
    ∃ sentence,
      sentence = "@" ++ account ++ " posted " ++ toString tweets.length ++ " tweets on "
        ++ date ++ "." ∧
      summarizeTweetsForAccount env tweets account date
        = sentence ++ " LLM analysis failed: " ++ err ∧
      summarizeTweetsForAccount { env with openaiToken := "" } tweets account date
        = sentence ++ " OpenAI API key not configured for detailed analysis." := by
  have hlen : tweets.length ≠ 0 := by simpa [List.length_eq_zero] using hne
  refine ⟨_, rfl, ?_, ?_⟩
  · simp only [summarizeTweetsForAccount, hlen, if_false, henv, htoken, hfail]
    simp only [String.append_assoc]
    rfl
  · simp only [summarizeTweetsForAccount, hlen, if_false, henv, if_true]
    simp only [String.append_assoc]
    rfl

/-- Witness for C9: two posts of `alice` and a `Summarize` call that fails with
`status 500`. -/
theorem summarizeTweetsForAccount_llm_failure_witness :
    [exampleTweet "1" "alice", exampleTweet "4" "alice"] ≠ [] ∧
      (answeringLLM (.error "status 500")).envErr = none ∧
      (answeringLLM (.error "status 500")).openaiToken ≠ "" ∧
      (answeringLLM (.error "status 500")).Summarize
          (utf8 (combinedText [exampleTweet "1" "alice", exampleTweet "4" "alice"] "alice"
            "2024-03-01"))
          (answeringLLM (.error "status 500")).openaiToken = .error "status 500" ∧
      ∃ sentence,
        sentence = "@" ++ "alice" ++ " posted "
          ++ toString [exampleTweet "1" "alice", exampleTweet "4" "alice"].length
          ++ " tweets on " ++ "2024-03-01" ++ "." ∧
        summarizeTweetsForAccount (answeringLLM (.error "status 500"))
            [exampleTweet "1" "alice", exampleTweet "4" "alice"] "alice" "2024-03-01"
          = sentence ++ " LLM analysis failed: " ++ "status 500" ∧
        summarizeTweetsForAccount { answeringLLM (.error "status 500") with openaiToken := "" }
            [exampleTweet "1" "alice", exampleTweet "4" "alice"] "alice" "2024-03-01"
          = sentence ++ " OpenAI API key not configured for detailed analysis." :=
  ⟨by decide, rfl, by decide, rfl,
    summarizeTweetsForAccount_llm_failure (answeringLLM (.error "status 500"))
      [exampleTweet "1" "alice", exampleTweet "4" "alice"] "alice" "2024-03-01" "status 500"
      (by decide) rfl (by decide) rfl⟩

/-- The summary of the example above, written out. -/
theorem summarizeTweetsForAccount_llm_failure_example :
    summarizeTweetsForAccount (answeringLLM (.error "status 500"))
        [exampleTweet "1" "alice", exampleTweet "4" "alice"] "alice" "2024-03-01"
      = "@alice posted 2 tweets on 2024-03-01. LLM analysis failed: status 500" ∧
    summarizeTweetsForAccount noTokenLLM
        [exampleTweet "1" "alice", exampleTweet "4" "alice"] "alice" "2024-03-01"
      = "@alice posted 2 tweets on 2024-03-01. "
        ++ "OpenAI API key not configured for detailed analysis." := by
  constructor <;> rfl

/-- Counterexample to C10 as stated: with a configured token and a `Summarize` call
that succeeds with the text `Quiet day.`, the account-day summary is not that text:
`summarizeTweetsForAccount` puts a header in front of it. -/
theorem summarizeTweetsForAccount_not_verbatim :
    (answeringLLM (.ok "Quiet day.")).envErr = none ∧
      (answeringLLM (.ok "Quiet day.")).openaiToken ≠ "" ∧
      (answeringLLM (.ok "Quiet day.")).Summarize
          (utf8 (combinedText [exampleTweet "1" "alice"] "alice" "2024-03-01"))
          (answeringLLM (.ok "Quiet day.")).openaiToken = .ok "Quiet day." ∧
      summarizeTweetsForAccount (answeringLLM (.ok "Quiet day.")) [exampleTweet "1" "alice"]
          "alice" "2024-03-01"
        = "@alice Activity Summary for 2024-03-01:\n\nQuiet day." ∧
      summarizeTweetsForAccount (answeringLLM (.ok "Quiet day.")) [exampleTweet "1" "alice"]
          "alice" "2024-03-01"
        ≠ "Quiet day." := by
  refine ⟨rfl, by decide, rfl, rfl, by decide⟩

/-- C10, amended: with a loaded environment, a configured token and a `Summarize` call
that succeeds with `summary`, `generateOverallSummary` returns `summary` verbatim,
and `summarizeTweetsForAccount` returns the header
`@<account> Activity Summary for <date>:`, an empty line, and then `summary`
verbatim. -/
theorem summaries_on_llm_success (env : LLMEnv) (fmtAvg : Int → Int → String)
    (order : List String) (dailyReports : List DailyReport) (analysisText : Bytes)
    (tweets : List Tweet) (account date overall summary : String)
    (henv : env.envErr = none) (htoken : env.openaiToken ≠ "")
    (hdays : dailyReports ≠ [])
    (htext : overallAnalysisText dailyReports = some analysisText)
    (hoverall : env.Summarize analysisText env.openaiToken = .ok overall)
    (htweets : tweets ≠ [])
    (hsummary : env.Summarize (utf8 (combinedText tweets account date)) env.openaiToken
      = .ok summary) :
    generateOverallSummary env fmtAvg order dailyReports = some overall ∧
      summarizeTweetsForAccount env tweets account date
        = "@" ++ account ++ " Activity Summary for " ++ date ++ ":\n\n" ++ summary := by
  have hlen : dailyReports.length ≠ 0 := by simpa [List.length_eq_zero] using hdays
  have hlen' : tweets.length ≠ 0 := by simpa [List.length_eq_zero] using htweets
  constructor
  · simp only [generateOverallSummary, hlen, if_false, henv, htoken, htext, hoverall]
  · simp only [summarizeTweetsForAccount, hlen', if_false, henv, htoken, hsummary]

/-- Witness for C10 as amended: every `Summarize` call returns `Quiet week.`. -/
theorem summaries_on_llm_success_witness :
    (answeringLLM (.ok "Quiet week.")).envErr = none ∧
      (answeringLLM (.ok "Quiet week.")).openaiToken ≠ "" ∧
      [exampleDay "2024-03-01" [("alice", 2)]] ≠ [] ∧
      overallAnalysisText [exampleDay "2024-03-01" [("alice", 2)]]
        = some ((overallAnalysisText [exampleDay "2024-03-01" [("alice", 2)]]).getD []) ∧
      [exampleTweet "1" "alice"] ≠ [] ∧
      generateOverallSummary (answeringLLM (.ok "Quiet week.")) (fun _ _ => "?") ["alice"]
          [exampleDay "2024-03-01" [("alice", 2)]] = some "Quiet week." ∧
      summarizeTweetsForAccount (answeringLLM (.ok "Quiet week.")) [exampleTweet "1" "alice"]
          "alice" "2024-03-01"
        = "@" ++ "alice" ++ " Activity Summary for " ++ "2024-03-01" ++ ":\n\n"
          ++ "Quiet week." :=
  ⟨rfl, by decide, by decide, by rfl, by decide,
    summaries_on_llm_success (answeringLLM (.ok "Quiet week.")) (fun _ _ => "?") ["alice"]
      [exampleDay "2024-03-01" [("alice", 2)]]
      ((overallAnalysisText [exampleDay "2024-03-01" [("alice", 2)]]).getD [])
      [exampleTweet "1" "alice"] "alice" "2024-03-01" "Quiet week." "Quiet week."
      rfl (by decide) (by decide) (by rfl) rfl (by decide) rfl⟩

/-! ## The sorting loops -/

theorem innerLoop_perm (ai : accountActivity) (rest : List accountActivity) :
    ((innerLoop ai rest).1 :: (innerLoop ai rest).2).Perm (ai :: rest) := by
  induction rest generalizing ai with
  | nil => simp [innerLoop]
  | cons aj rest ih =>
    by_cases h : aj.tweets > ai.tweets
    · simp only [innerLoop, h, if_true]
      exact (List.Perm.swap _ _ _).trans ((ih aj).cons ai)
    · simp only [innerLoop, h, if_false]
      exact ((List.Perm.swap _ _ _).trans ((ih ai).cons aj)).trans (List.Perm.swap _ _ _)

theorem innerLoop_length (ai : accountActivity) (rest : List accountActivity) :
    (innerLoop ai rest).2.length = rest.length := by
  have h := (innerLoop_perm ai rest).length_eq
  simpa using h

theorem innerLoop_ge_start (ai : accountActivity) (rest : List accountActivity) :
    ai.tweets ≤ (innerLoop ai rest).1.tweets := by
  induction rest generalizing ai with
  | nil => simp [innerLoop]
  | cons aj rest ih =>
    by_cases h : aj.tweets > ai.tweets
    · simp only [innerLoop, h, if_true]
      have := ih aj
      omega
    · simp only [innerLoop, h, if_false]
      exact ih ai

/-- After the inner loop, `activities[i]` has at least as many tweets as every later
entry. -/
theorem innerLoop_max (ai : accountActivity) (rest : List accountActivity) :
    ∀ a ∈ (innerLoop ai rest).2, a.tweets ≤ (innerLoop ai rest).1.tweets := by
  induction rest generalizing ai with
  | nil => simp [innerLoop]
  | cons aj rest ih =>
    by_cases h : aj.tweets > ai.tweets
    · simp only [innerLoop, h, if_true, List.mem_cons]
      rintro a (rfl | ha)
      · have := innerLoop_ge_start aj rest
        omega
      · exact ih aj a ha
    · simp only [innerLoop, h, if_false, List.mem_cons]
      rintro a (rfl | ha)
      · have := innerLoop_ge_start ai rest
        omega
      · exact ih ai a ha

/-- The inner loop exchanges nothing when no later entry has more tweets. -/
theorem innerLoop_noswap (ai : accountActivity) (rest : List accountActivity)
    (h : ∀ a ∈ rest, a.tweets ≤ ai.tweets) : innerLoop ai rest = (ai, rest) := by
  induction rest with
  | nil => rfl
  | cons aj rest ih =>
    have h1 : ¬ aj.tweets > ai.tweets := by
      have := h aj (List.mem_cons_self _ _)
      omega
    simp only [innerLoop, h1, if_false]
    rw [ih (fun a ha => h a (List.mem_cons_of_mem _ ha))]

theorem outerLoop_perm (n : Nat) (activities : List accountActivity) :
    (outerLoop n activities).Perm activities := by
  induction n generalizing activities with
  | zero => simp [outerLoop]
  | succ n ih =>
    cases activities with
    | nil => simp [outerLoop]
    | cons ai rest =>
      simp only [outerLoop]
      exact ((ih _).cons _).trans (innerLoop_perm ai rest)

theorem outerLoop_sorted (n : Nat) (activities : List accountActivity)
    (hn : activities.length ≤ n + 1) :
    (outerLoop n activities).Pairwise (fun a b => b.tweets ≤ a.tweets) := by
  induction n generalizing activities with
  | zero =>
    match activities, hn with
    | [], _ => simp [outerLoop]
    | [a], _ => simp [outerLoop]
  | succ n ih =>
    cases activities with
    | nil => simp [outerLoop]
    | cons ai rest =>
      simp only [outerLoop, List.pairwise_cons]
      constructor
      · intro a ha
        exact innerLoop_max ai rest a ((outerLoop_perm n _).mem_iff.mp ha)
      · apply ih
        rw [innerLoop_length]
        simpa using hn

theorem outerLoop_noswap (n : Nat) (activities : List accountActivity)
    (h : activities.Pairwise (fun a b => b.tweets ≤ a.tweets)) :
    outerLoop n activities = activities := by
  induction n generalizing activities with
  | zero => simp [outerLoop]
  | succ n ih =>
    cases activities with
    | nil => simp [outerLoop]
    | cons ai rest =>
      rw [List.pairwise_cons] at h
      simp only [outerLoop, innerLoop_noswap ai rest h.1, ih rest h.2]

theorem getElem?_at_length (pre : List accountActivity) (x : accountActivity)
    (rest : List accountActivity) : (pre ++ x :: rest)[pre.length]? = some x := by
  induction pre with
  | nil => simp
  | cons p pre ih => simpa using ih

theorem getElem?_after (pre done todo : List accountActivity) (x y : accountActivity) :
    (pre ++ x :: (done ++ y :: todo))[pre.length + 1 + done.length]? = some y := by
  have h : pre ++ x :: (done ++ y :: todo) = (pre ++ x :: done) ++ y :: todo := by simp
  have hl : pre.length + 1 + done.length = (pre ++ x :: done).length := by simp; omega
  rw [h, hl]
  exact getElem?_at_length _ _ _

theorem set_at_length (pre : List accountActivity) (x z : accountActivity)
    (rest : List accountActivity) : (pre ++ x :: rest).set pre.length z = pre ++ z :: rest := by
  induction pre with
  | nil => rfl
  | cons p pre ih => simp [List.set, ih]

theorem swapEntries_split (pre done todo : List accountActivity) (x y : accountActivity) :
    swapEntries (pre ++ x :: (done ++ y :: todo)) pre.length (pre.length + 1 + done.length)
      = pre ++ y :: (done ++ x :: todo) := by
  simp only [swapEntries, getElem?_at_length, getElem?_after]
  rw [set_at_length]
  have h : pre ++ y :: (done ++ y :: todo) = (pre ++ y :: done) ++ y :: todo := by simp
  have hl : pre.length + 1 + done.length = (pre ++ y :: done).length := by simp; omega
  rw [h, hl, set_at_length]
  simp

/-- The inner loop on indices agrees with its description on lists. -/
theorem innerLoopAt_eq (pre : List accountActivity) (todo : List accountActivity) :
    ∀ (x : accountActivity) (done : List accountActivity),
      innerLoopAt pre.length todo.length (pre.length + 1 + done.length)
          (pre ++ x :: (done ++ todo))
        = pre ++ (innerLoop x todo).1 :: (done ++ (innerLoop x todo).2) := by
  induction todo with
  | nil => intro x done; simp [innerLoopAt, innerLoop]
  | cons y t ih =>
    intro x done
    simp only [List.length_cons, innerLoopAt, getElem?_at_length, getElem?_after]
    by_cases h : y.tweets > x.tweets
    · simp only [h, if_true, innerLoop, swapEntries_split]
      have := ih y (done ++ [x])
      simp only [List.length_append, List.length_singleton, List.append_assoc,
        List.singleton_append, ← Nat.add_assoc] at this
      exact this
    · simp only [h, if_false, innerLoop]
      have := ih x (done ++ [y])
      simp only [List.length_append, List.length_singleton, List.append_assoc,
        List.singleton_append, ← Nat.add_assoc] at this
      exact this

/-- The outer loop on indices agrees with its description on lists. -/
theorem outerLoopAt_eq (n : Nat) :
    ∀ (pre l : List accountActivity), n ≤ l.length - 1 →
      outerLoopAt n pre.length (pre ++ l) = pre ++ outerLoop n l := by
  induction n with
  | zero => intro pre l _; simp [outerLoopAt, outerLoop]
  | succ n ih =>
    intro pre l hn
    cases l with
    | nil => simp at hn
    | cons x rest =>
      have hlen : (pre ++ x :: rest).length - (pre.length + 1) = rest.length := by
        simp only [List.length_append, List.length_cons]
        omega
      have hinner := innerLoopAt_eq pre rest x []
      simp only [List.length_nil, Nat.add_zero, List.nil_append] at hinner
      simp only [outerLoopAt, outerLoop, hlen, hinner]
      have hstep := ih (pre ++ [(innerLoop x rest).1]) (innerLoop x rest).2
        (by rw [innerLoop_length]; simp at hn; omega)
      simp only [List.length_append, List.length_singleton, List.append_assoc,
        List.singleton_append] at hstep
      exact hstep

theorem sortActivities_eq_outerLoop (activities : List accountActivity) :
    sortActivities activities = outerLoop (activities.length - 1) activities := by
  have h := outerLoopAt_eq (activities.length - 1) [] activities (le_refl _)
  simpa [sortActivities] using h

theorem sortActivities_perm (activities : List accountActivity) :
    (sortActivities activities).Perm activities := by
  rw [sortActivities_eq_outerLoop]
  exact outerLoop_perm _ _

theorem sortActivities_sorted (activities : List accountActivity) :
    (sortActivities activities).Pairwise (fun a b => b.tweets ≤ a.tweets) := by
  rw [sortActivities_eq_outerLoop]
  exact outerLoop_sorted _ _ (by omega)

theorem sortActivities_noswap (activities : List accountActivity)
    (h : activities.Pairwise (fun a b => b.tweets ≤ a.tweets)) :
    sortActivities activities = activities := by
  rw [sortActivities_eq_outerLoop]
  exact outerLoop_noswap _ _ h

/-! ## The aggregation loop -/

/-- The inner aggregation loop, started from any state. -/
theorem aggregateAccounts_invariant (ars : List AccountReport) (s : Stats) :
    (ars.foldl aggregateAccount s).totalTweets = s.totalTweets ∧
      (s.allAccounts.keys.Nodup → (ars.foldl aggregateAccount s).allAccounts.keys.Nodup) ∧
      (∀ u, u ∈ (ars.foldl aggregateAccount s).allAccounts.keys ↔
        u ∈ s.allAccounts.keys ∨ ∃ a ∈ ars, a.Username = u) ∧
      (∀ u, GoMap.get 0 (ars.foldl aggregateAccount s).allAccounts u
        = GoMap.get 0 s.allAccounts u
          + ((ars.filter fun a => a.Username = u).map fun a => a.TweetCount).sum) := by
  induction ars generalizing s with
  | nil => simp
  | cons a rest ih =>
    obtain ⟨h1, h2, h3, h4⟩ := ih (aggregateAccount s a)
    simp only [List.foldl_cons]
    refine ⟨by rw [h1]; rfl, ?_, ?_, ?_⟩
    · intro hnd
      exact h2 (GoMap.nodup_keys_set _ _ _ hnd)
    · intro u
      rw [h3]
      simp only [aggregateAccount, GoMap.mem_keys_set, List.mem_cons, exists_eq_or_imp]
      constructor
      · rintro ((h | h) | h)
        · exact Or.inr (Or.inl h.symm)
        · exact Or.inl h
        · exact Or.inr (Or.inr h)
      · rintro (h | h | h)
        · exact Or.inl (Or.inr h)
        · exact Or.inl (Or.inl h.symm)
        · exact Or.inr h
    · intro u
      rw [h4]
      simp only [aggregateAccount, GoMap.get_set]
      by_cases hu : a.Username = u
      · simp [hu, List.filter_cons]
        ring
      · simp [hu, List.filter_cons]

/-- The aggregation loop, started from any state. -/
theorem aggregateReports_invariant (dailyReports : List DailyReport) (s : Stats) :
    (dailyReports.foldl aggregateReport s).totalTweets
        = s.totalTweets + (dailyReports.map fun r => r.TotalTweets).sum ∧
      (s.allAccounts.keys.Nodup →
        (dailyReports.foldl aggregateReport s).allAccounts.keys.Nodup) ∧
      (∀ u, u ∈ (dailyReports.foldl aggregateReport s).allAccounts.keys ↔
        u ∈ s.allAccounts.keys ∨ u ∈ allUsernames dailyReports) ∧
      (∀ u, GoMap.get 0 (dailyReports.foldl aggregateReport s).allAccounts u
        = GoMap.get 0 s.allAccounts u + windowTotal dailyReports u) := by
  induction dailyReports generalizing s with
  | nil => simp [allUsernames, windowTotal]
  | cons r rest ih =>
    obtain ⟨h1, h2, h3, h4⟩ := ih (aggregateReport s r)
    obtain ⟨i1, i2, i3, i4⟩ := aggregateAccounts_invariant r.AccountReports
      { s with totalTweets := s.totalTweets + r.TotalTweets }
    simp only [List.foldl_cons]
    refine ⟨?_, ?_, ?_, ?_⟩
    · rw [h1]
      simp only [aggregateReport, i1, List.map_cons, List.sum_cons]
      ring
    · intro hnd
      exact h2 (i2 hnd)
    · intro u
      rw [h3]
      simp only [aggregateReport, i3, allUsernames, List.map_cons, List.flatten_cons,
        List.mem_append, List.mem_map]
      rw [or_assoc]
    · intro u
      rw [h4]
      simp only [aggregateReport, i4, windowTotal, List.map_cons, List.sum_cons]
      ring

theorem aggregateStats_totalTweets (dailyReports : List DailyReport) :
    (aggregateStats dailyReports).totalTweets = (dailyReports.map fun r => r.TotalTweets).sum := by
  have h := (aggregateReports_invariant dailyReports ⟨0, [], []⟩).1
  simpa [aggregateStats] using h

theorem aggregateStats_nodup (dailyReports : List DailyReport) :
    (aggregateStats dailyReports).allAccounts.keys.Nodup :=
  (aggregateReports_invariant dailyReports ⟨0, [], []⟩).2.1 (by simp [GoMap.keys])

theorem aggregateStats_mem_keys (dailyReports : List DailyReport) (u : String) :
    u ∈ (aggregateStats dailyReports).allAccounts.keys ↔ u ∈ allUsernames dailyReports := by
  have h := (aggregateReports_invariant dailyReports ⟨0, [], []⟩).2.2.1 u
  simpa [aggregateStats, GoMap.keys] using h

theorem aggregateStats_get (dailyReports : List DailyReport) (u : String) :
    GoMap.get 0 (aggregateStats dailyReports).allAccounts u = windowTotal dailyReports u := by
  have h := (aggregateReports_invariant dailyReports ⟨0, [], []⟩).2.2.2 u
  simpa [aggregateStats, GoMap.get] using h

/-- The keys of `allAccounts` are the distinct usernames of the reports. -/
theorem aggregateStats_keys_perm (dailyReports : List DailyReport) :
    (aggregateStats dailyReports).allAccounts.keys.Perm (allUsernames dailyReports).dedup := by
  rw [List.perm_ext_iff_of_nodup (aggregateStats_nodup dailyReports) (List.nodup_dedup _)]
  intro u
  rw [aggregateStats_mem_keys, List.mem_dedup]

/-! ## The ranking of the statistical fallback -/

theorem buildActivities_names (s : Stats) (order : List String) :
    (buildActivities s order).map (fun a => a.name) = order := by
  induction order with
  | nil => rfl
  | cons k rest ih =>
    simp only [buildActivities, List.map_cons, List.map_map] at ih ⊢
    rw [ih]

/-- Counterexample to C6 as stated.  Accounts `A` (5 posts, met first) and `B`
(5 posts, met second): `allAccounts` holds `A` and `B`, and when the map iteration
yields `B` before `A` the ranked list is `[B, A]`.  Moreover the sorting loops do not
keep ties in place: with a third account `C` (7 posts, met last) and the map
iteration in first-met order `A, B, C`, the ranked list is `[C, B, A]`. -/
theorem ranking_ties_not_in_first_met_order :
    (aggregateStats [exampleDay "2024-03-01" [("A", 5), ("B", 5)]]).allAccounts
        = [("A", 5), ("B", 5)] ∧
      List.Perm ["B", "A"]
        (aggregateStats [exampleDay "2024-03-01" [("A", 5), ("B", 5)]]).allAccounts.keys ∧
      rankedActivities ["B", "A"] [exampleDay "2024-03-01" [("A", 5), ("B", 5)]]
        = [⟨"B", 5, 1⟩, ⟨"A", 5, 1⟩] ∧
      rankedActivities ["B", "A"] [exampleDay "2024-03-01" [("A", 5), ("B", 5)]]
        ≠ [⟨"A", 5, 1⟩, ⟨"B", 5, 1⟩] ∧
      (aggregateStats [exampleDay "2024-03-01" [("A", 5), ("B", 5), ("C", 7)]]).allAccounts.keys
        = ["A", "B", "C"] ∧
      rankedActivities ["A", "B", "C"]
          [exampleDay "2024-03-01" [("A", 5), ("B", 5), ("C", 7)]]
        = [⟨"C", 7, 1⟩, ⟨"B", 5, 1⟩, ⟨"A", 5, 1⟩] := by
  refine ⟨by decide, by decide, by decide, by decide, by decide, by decide⟩

/-- C6, amended: when the accounts, taken in the order in which the map iteration over
`allAccounts` yields them, are already in non-increasing order of total post count,
the sorting loops exchange nothing and the ranked list is the list of accounts in
that order.  So accounts with equal totals are ranked in first-met order when the
map iteration yields them in first-met order and no later account has more posts. -/
theorem ranking_keeps_iteration_order_when_sorted (order : List String)
    (dailyReports : List DailyReport)
    (hsorted : (buildActivities (aggregateStats dailyReports) order).Pairwise
      (fun a b => b.tweets ≤ a.tweets)) :
    rankedActivities order dailyReports = buildActivities (aggregateStats dailyReports) order ∧
      (rankedActivities order dailyReports).map (fun a => a.name) = order := by
  have h : rankedActivities order dailyReports
      = buildActivities (aggregateStats dailyReports) order :=
    sortActivities_noswap _ hsorted
  exact ⟨h, by rw [h, buildActivities_names]⟩

/-- Witness for C6 as amended: `A` and `B` with 5 posts each, visited in the order
`A`, `B`. -/
theorem ranking_keeps_iteration_order_when_sorted_witness :
    (buildActivities (aggregateStats [exampleDay "2024-03-01" [("A", 5), ("B", 5)]])
        ["A", "B"]).Pairwise (fun a b => b.tweets ≤ a.tweets) ∧
      rankedActivities ["A", "B"] [exampleDay "2024-03-01" [("A", 5), ("B", 5)]]
        = buildActivities (aggregateStats [exampleDay "2024-03-01" [("A", 5), ("B", 5)]])
          ["A", "B"] ∧
      (rankedActivities ["A", "B"] [exampleDay "2024-03-01" [("A", 5), ("B", 5)]]).map
        (fun a => a.name) = ["A", "B"] :=
  ⟨by decide,
    ranking_keeps_iteration_order_when_sorted ["A", "B"]
      [exampleDay "2024-03-01" [("A", 5), ("B", 5)]] (by decide)⟩

/-- C7: for every sequence of daily reports and every order in which the map iteration
may yield the accounts, the ranked list of `generateSimpleOverallSummary` holds the
distinct accounts of the reports, each once, each with its window total, in
non-increasing order of total; the account printed as most active is the first entry
and its total is at least the total of every account. -/
theorem rankedActivities_perm_sorted (order : List String) (dailyReports : List DailyReport)
    (horder : order.Perm (aggregateStats dailyReports).allAccounts.keys) :
    ((rankedActivities order dailyReports).map fun a => a.name).Perm
        (allUsernames dailyReports).dedup ∧
      (∀ a ∈ rankedActivities order dailyReports,
        a.tweets = windowTotal dailyReports a.name) ∧
      (rankedActivities order dailyReports).Pairwise (fun a b => b.tweets ≤ a.tweets) ∧
      (∀ top rest, rankedActivities order dailyReports = top :: rest →
        mostActiveAccountLine (rankedActivities order dailyReports)
            = "  - Most active account: @" ++ top.name ++ " with " ++ toString top.tweets
              ++ " tweets\n" ∧
          ∀ a ∈ rankedActivities order dailyReports, a.tweets ≤ top.tweets) := by
  have hperm : (rankedActivities order dailyReports).Perm
      (buildActivities (aggregateStats dailyReports) order) := sortActivities_perm _
  have hsorted : (rankedActivities order dailyReports).Pairwise
      (fun a b => b.tweets ≤ a.tweets) := sortActivities_sorted _
  refine ⟨?_, ?_, hsorted, ?_⟩
  · have h1 := hperm.map (fun a => a.name)
    rw [buildActivities_names] at h1
    exact (h1.trans horder).trans (aggregateStats_keys_perm dailyReports)
  · intro a ha
    have ha' := hperm.mem_iff.mp ha
    simp only [buildActivities, List.mem_map] at ha'
    obtain ⟨u, _, rfl⟩ := ha'
    exact aggregateStats_get dailyReports u
  · intro top rest htop
    rw [htop] at hsorted ⊢
    refine ⟨rfl, ?_⟩
    intro a ha
    rw [List.pairwise_cons] at hsorted
    rcases List.mem_cons.mp ha with rfl | ha
    · exact le_refl _
    · exact hsorted.1 a ha

/-- Witness for C7: three accounts over two days, visited in the order `C`, `A`,
`B`; the ranked list is `B` (6), `A` (5), `C` (1). -/
theorem rankedActivities_perm_sorted_witness :
    List.Perm ["C", "A", "B"]
        (aggregateStats [exampleDay "2024-03-01" [("A", 5), ("B", 2)],
          exampleDay "2024-03-02" [("B", 4), ("C", 1)]]).allAccounts.keys ∧
      rankedActivities ["C", "A", "B"]
          [exampleDay "2024-03-01" [("A", 5), ("B", 2)],
            exampleDay "2024-03-02" [("B", 4), ("C", 1)]]
        = [⟨"B", 6, 2⟩, ⟨"A", 5, 1⟩, ⟨"C", 1, 1⟩] ∧
      ((rankedActivities ["C", "A", "B"]
          [exampleDay "2024-03-01" [("A", 5), ("B", 2)],
            exampleDay "2024-03-02" [("B", 4), ("C", 1)]]).map fun a => a.name).Perm
        (allUsernames [exampleDay "2024-03-01" [("A", 5), ("B", 2)],
          exampleDay "2024-03-02" [("B", 4), ("C", 1)]]).dedup :=
  ⟨by decide, by decide,
    (rankedActivities_perm_sorted ["C", "A", "B"]
      [exampleDay "2024-03-01" [("A", 5), ("B", 2)],
        exampleDay "2024-03-02" [("B", 4), ("C", 1)]] (by decide)).1⟩

/-! ## The most active day -/

/-- The loop for the most active day, started from any `(maxDay, maxDayTweets)`:
either no day has more tweets than the start value and the state is unchanged, or the
state is the first day among those with the highest total. -/
theorem mostActiveDay_loop (l : List DailyReport) (m : String × Int) :
    (l.foldl (fun m report =>
          if report.TotalTweets > m.2 then (report.Date, report.TotalTweets) else m) m = m ∧
        ∀ r ∈ l, r.TotalTweets ≤ m.2) ∨
      ∃ before d after, l = before ++ d :: after ∧
        (∀ r ∈ before, r.TotalTweets < d.TotalTweets) ∧
        m.2 < d.TotalTweets ∧
        (∀ r ∈ after, r.TotalTweets ≤ d.TotalTweets) ∧
        l.foldl (fun m report =>
          if report.TotalTweets > m.2 then (report.Date, report.TotalTweets) else m) m
          = (d.Date, d.TotalTweets) := by
  induction l generalizing m with
  | nil => exact Or.inl ⟨rfl, by simp⟩
  | cons r rest ih =>
    by_cases h : r.TotalTweets > m.2
    · simp only [List.foldl_cons, h, if_true]
      rcases ih (r.Date, r.TotalTweets) with ⟨heq, hle⟩ | ⟨b, d, a, hl, hb, hm, ha, heq⟩
      · exact Or.inr ⟨[], r, rest, rfl, by simp, h, hle, heq⟩
      · refine Or.inr ⟨r :: b, d, a, by rw [hl]; rfl, ?_, ?_, ha, heq⟩
        · intro x hx
          rcases List.mem_cons.mp hx with rfl | hx
          · exact hm
          · exact hb x hx
        · simp only at hm
          omega
    · simp only [List.foldl_cons, h, if_false]
      rcases ih m with ⟨heq, hle⟩ | ⟨b, d, a, hl, hb, hm, ha, heq⟩
      · refine Or.inl ⟨heq, ?_⟩
        intro x hx
        rcases List.mem_cons.mp hx with rfl | hx
        · omega
        · exact hle x hx
      · refine Or.inr ⟨r :: b, d, a, by rw [hl]; rfl, ?_, hm, ha, heq⟩
        intro x hx
        rcases List.mem_cons.mp hx with rfl | hx
        · omega
        · exact hb x hx

theorem sum_pos_of_nonneg_of_pos (l : List DailyReport)
    (hnn : ∀ r ∈ l, 0 ≤ r.TotalTweets) (hpos : ∃ r ∈ l, 0 < r.TotalTweets) :
    0 < (l.map fun r => r.TotalTweets).sum := by
  obtain ⟨r, hr, hr0⟩ := hpos
  have h : r.TotalTweets ≤ (l.map fun r => r.TotalTweets).sum := by
    apply List.single_le_sum
    · intro x hx
      obtain ⟨y, hy, rfl⟩ := List.mem_map.mp hx
      exact hnn y hy
    · exact List.mem_map_of_mem _ hr
  omega

/-- C8: for every non-empty sequence of daily reports with non-negative totals and at
least one post (a day with a positive total), there is a first day `d` among those with the highest
`TotalTweets` (every earlier day has fewer tweets, no later day has more), the loop
of `generateSimpleOverallSummary` ends with `maxDay = d.Date` and
`maxDayTweets = d.TotalTweets`, the branch that reports the most active day is taken
(`totalTweets` is not 0), and the summary ends with the line that names this day (the
line is left out only when `d.Date` is the empty string). -/
theorem mostActiveDay_first_max (fmtAvg : Int → Int → String) (order : List String)
    (dailyReports : List DailyReport) (hne : dailyReports ≠ [])
    (hnn : ∀ r ∈ dailyReports, 0 ≤ r.TotalTweets)
    (hpos : ∃ r ∈ dailyReports, 0 < r.TotalTweets) :
    ∃ before d after, dailyReports = before ++ d :: after ∧
      (∀ r ∈ before, r.TotalTweets < d.TotalTweets) ∧
      (∀ r ∈ after, r.TotalTweets ≤ d.TotalTweets) ∧
      mostActiveDay dailyReports = (d.Date, d.TotalTweets) ∧
      (aggregateStats dailyReports).totalTweets ≠ 0 ∧
      mostActiveDayLine dailyReports
        = (if d.Date = "" then ""
          else "  - Most active day: " ++ d.Date ++ " with " ++ toString d.TotalTweets
            ++ " tweets\n") ∧
      ∃ text, generateSimpleOverallSummary fmtAvg order dailyReports
        = some (text ++ mostActiveDayLine dailyReports) := by
  have htotal : (aggregateStats dailyReports).totalTweets ≠ 0 := by
    rw [aggregateStats_totalTweets]
    have := sum_pos_of_nonneg_of_pos dailyReports hnn hpos
    omega
  rcases mostActiveDay_loop dailyReports ("", 0) with ⟨_, hle⟩ | ⟨b, d, a, hl, hb, _, ha, heq⟩
  · obtain ⟨r, hr, hr0⟩ := hpos
    have := hle r hr
    simp only at this
    omega
  · have hday : mostActiveDay dailyReports = (d.Date, d.TotalTweets) := heq
    refine ⟨b, d, a, hl, hb, ha, hday, htotal, ?_, ?_⟩
    · simp only [mostActiveDayLine, hday]
      by_cases hd : d.Date = "" <;> simp [hd]
    · have h0 : 0 < dailyReports.length := List.length_pos.mpr hne
      have h1 : dailyReports.length - 1 < dailyReports.length := by omega
      simp only [generateSimpleOverallSummary, List.getElem?_eq_getElem h0,
        List.getElem?_eq_getElem h1, keyObservations, htotal, if_false,
        ← String.append_assoc]
      exact ⟨_, rfl⟩

/-- Witness for C8: totals 3, 7, 7, 2; the second day is reported. -/
theorem mostActiveDay_first_max_witness :
    [exampleDay "2024-03-01" [("A", 3)], exampleDay "2024-03-02" [("A", 7)],
        exampleDay "2024-03-03" [("B", 7)], exampleDay "2024-03-04" [("A", 2)]] ≠ [] ∧
      (∀ r ∈ [exampleDay "2024-03-01" [("A", 3)], exampleDay "2024-03-02" [("A", 7)],
        exampleDay "2024-03-03" [("B", 7)], exampleDay "2024-03-04" [("A", 2)]],
        0 ≤ r.TotalTweets) ∧
      (∃ r ∈ [exampleDay "2024-03-01" [("A", 3)], exampleDay "2024-03-02" [("A", 7)],
        exampleDay "2024-03-03" [("B", 7)], exampleDay "2024-03-04" [("A", 2)]],
        0 < r.TotalTweets) ∧
      mostActiveDay [exampleDay "2024-03-01" [("A", 3)], exampleDay "2024-03-02" [("A", 7)],
        exampleDay "2024-03-03" [("B", 7)], exampleDay "2024-03-04" [("A", 2)]]
        = ("2024-03-02", 7) ∧
      ∃ before d after,
        [exampleDay "2024-03-01" [("A", 3)], exampleDay "2024-03-02" [("A", 7)],
          exampleDay "2024-03-03" [("B", 7)], exampleDay "2024-03-04" [("A", 2)]]
          = before ++ d :: after ∧
        mostActiveDay [exampleDay "2024-03-01" [("A", 3)], exampleDay "2024-03-02" [("A", 7)],
          exampleDay "2024-03-03" [("B", 7)], exampleDay "2024-03-04" [("A", 2)]]
          = (d.Date, d.TotalTweets) := by
  refine ⟨by decide, by decide, by decide, by decide, ?_⟩
  obtain ⟨b, d, a, h1, _, _, h2, _⟩ := mostActiveDay_first_max (fun _ _ => "?") ["A", "B"]
    [exampleDay "2024-03-01" [("A", 3)], exampleDay "2024-03-02" [("A", 7)],
      exampleDay "2024-03-03" [("B", 7)], exampleDay "2024-03-04" [("A", 2)]]
    (by decide) (by decide) (by decide)
  exact ⟨b, d, a, h1, h2⟩

/-! ## The active-day counts -/

/-- The inner aggregation loop adds to `activeDays[u]` the number of account reports
of `u`. -/
theorem aggregateAccounts_activeDays (ars : List AccountReport) (s : Stats) (u : String) :
    GoMap.get 0 (ars.foldl aggregateAccount s).activeDays u
      = GoMap.get 0 s.activeDays u
        + (((ars.filter fun a => a.Username = u).length : Nat) : Int) := by
  induction ars generalizing s with
  | nil => simp
  | cons a rest ih =>
    simp only [List.foldl_cons]
    rw [ih]
    simp only [aggregateAccount, GoMap.get_set]
    by_cases hu : a.Username = u
    · simp [hu, List.filter_cons]
      ring
    · simp [hu, List.filter_cons]

/-- The aggregation loop adds to `activeDays[u]` the number of account reports of
`u` in the window. -/
theorem aggregateReports_activeDays (dailyReports : List DailyReport) (s : Stats)
    (u : String) :
    GoMap.get 0 (dailyReports.foldl aggregateReport s).activeDays u
      = GoMap.get 0 s.activeDays u + reportCount dailyReports u := by
  induction dailyReports generalizing s with
  | nil => simp [reportCount]
  | cons r rest ih =>
    simp only [List.foldl_cons]
    rw [ih]
    simp only [aggregateReport, aggregateAccounts_activeDays, reportCount, List.map_cons,
      List.sum_cons]
    ring

theorem aggregateStats_activeDays (dailyReports : List DailyReport) (u : String) :
    GoMap.get 0 (aggregateStats dailyReports).activeDays u = reportCount dailyReports u := by
  have h := aggregateReports_activeDays dailyReports ⟨0, [], []⟩ u
  simpa [aggregateStats, GoMap.get] using h

theorem reportCount_nonneg (dailyReports : List DailyReport) (u : String) :
    0 ≤ reportCount dailyReports u := by
  unfold reportCount
  apply List.sum_nonneg
  intro x hx
  obtain ⟨r, _, rfl⟩ := List.mem_map.mp hx
  exact Int.natCast_nonneg _

/-- An account that occurs in the reports has at least one account report. -/
theorem reportCount_pos (dailyReports : List DailyReport) (u : String)
    (hu : u ∈ allUsernames dailyReports) : 1 ≤ reportCount dailyReports u := by
  induction dailyReports with
  | nil => simp [allUsernames] at hu
  | cons r rest ih =>
    simp only [allUsernames, List.map_cons, List.flatten_cons, List.mem_append,
      List.mem_map] at hu
    simp only [reportCount, List.map_cons, List.sum_cons]
    have hrest : 0 ≤ reportCount rest u := reportCount_nonneg rest u
    simp only [reportCount] at hrest ih
    rcases hu with ⟨a, ha, hau⟩ | hu
    · have hmem : a ∈ r.AccountReports.filter fun a => a.Username = u := by
        simp [List.mem_filter, ha, hau]
      have hpos : 0 < (r.AccountReports.filter fun a => a.Username = u).length :=
        List.length_pos_of_mem hmem
      omega
    · have := ih (by simpa [allUsernames] using hu)
      have h0 : (0 : Int) ≤ ((r.AccountReports.filter fun a => a.Username = u).length : Nat) :=
        Int.natCast_nonneg _
      omega

/-- C11: for every non-empty sequence of daily reports, `dailyReports[0]` and
`dailyReports[len(dailyReports)-1]` are in range and `generateSimpleOverallSummary`
returns a text; for every order in which the map iteration may yield the accounts,
every ranked account has an active-day count of at least 1, so the divisor of
`total / active_days` is never 0 (and the divisor `len(dailyReports)` of the daily
average is at least 1); `generateOverallSummary`, which guards the empty case, returns
a text for every sequence. -/
theorem generateSimpleOverallSummary_cannot_fail (fmtAvg : Int → Int → String)
    (order : List String) (dailyReports : List DailyReport) (hne : dailyReports ≠ []) :
    (∃ first, dailyReports[0]? = some first) ∧
      (∃ last, dailyReports[dailyReports.length - 1]? = some last) ∧
      (∃ text, generateSimpleOverallSummary fmtAvg order dailyReports = some text) ∧
      (order.Perm (aggregateStats dailyReports).allAccounts.keys →
        ∀ a ∈ rankedActivities order dailyReports, 1 ≤ a.days ∧ a.days ≠ 0) ∧
      1 ≤ dailyReports.length ∧
      (∀ env, ∃ text, generateOverallSummary env fmtAvg order dailyReports = some text) ∧
      (∀ env, ∃ text, generateOverallSummary env fmtAvg order [] = some text) := by
  have h0 : 0 < dailyReports.length := List.length_pos.mpr hne
  have h1 : dailyReports.length - 1 < dailyReports.length := by omega
  refine ⟨⟨_, List.getElem?_eq_getElem h0⟩, ⟨_, List.getElem?_eq_getElem h1⟩,
    generateSimpleOverallSummary_isSome fmtAvg order dailyReports hne, ?_, h0,
    fun env => generateOverallSummary_isSome env fmtAvg order dailyReports,
    fun env => generateOverallSummary_isSome env fmtAvg order []⟩
  intro horder a ha
  have ha' := (sortActivities_perm _).mem_iff.mp ha
  simp only [buildActivities, List.mem_map] at ha'
  obtain ⟨u, hu, rfl⟩ := ha'
  have hkey : u ∈ (aggregateStats dailyReports).allAccounts.keys := horder.mem_iff.mp hu
  have hpos := reportCount_pos dailyReports u
    ((aggregateStats_mem_keys dailyReports u).mp hkey)
  simp only [aggregateStats_activeDays]
  omega

/-- Witness for C11: three accounts over two days, visited in the order `C`, `A`,
`B`. -/
theorem generateSimpleOverallSummary_cannot_fail_witness :
    [exampleDay "2024-03-01" [("A", 5), ("B", 2)],
        exampleDay "2024-03-02" [("B", 4), ("C", 1)]] ≠ [] ∧
      List.Perm ["C", "A", "B"]
        (aggregateStats [exampleDay "2024-03-01" [("A", 5), ("B", 2)],
          exampleDay "2024-03-02" [("B", 4), ("C", 1)]]).allAccounts.keys ∧
      (∃ text, generateSimpleOverallSummary (fun _ _ => "?") ["C", "A", "B"]
        [exampleDay "2024-03-01" [("A", 5), ("B", 2)],
          exampleDay "2024-03-02" [("B", 4), ("C", 1)]] = some text) ∧
      ∀ a ∈ rankedActivities ["C", "A", "B"]
          [exampleDay "2024-03-01" [("A", 5), ("B", 2)],
            exampleDay "2024-03-02" [("B", 4), ("C", 1)]],
        1 ≤ a.days ∧ a.days ≠ 0 := by
  have h := generateSimpleOverallSummary_cannot_fail (fun _ _ => "?") ["C", "A", "B"]
    [exampleDay "2024-03-01" [("A", 5), ("B", 2)],
      exampleDay "2024-03-02" [("B", 4), ("C", 1)]] (by decide)
  exact ⟨by decide, by decide, h.2.2.1, h.2.2.2.1 (by decide)⟩

/-! ## The groups of the daily report -/

/-- The grouping loop, started from any map: the group of `u` grows by the posts of
`u`, in their order, and the keys grow by the authors of the posts. -/
theorem groupLoop_groups (tweets : List Tweet) (m : GoMap (List Tweet)) :
    (∀ u, GoMap.get []
        (tweets.foldl
          (fun accountTweets tweet =>
            accountTweets.set tweet.Username (accountTweets.get [] tweet.Username ++ [tweet]))
          m) u
        = GoMap.get [] m u ++ tweets.filter (fun t => t.Username = u)) ∧
      (∀ u, u ∈ GoMap.keys
          (tweets.foldl
            (fun accountTweets tweet =>
              accountTweets.set tweet.Username
                (accountTweets.get [] tweet.Username ++ [tweet]))
            m)
        ↔ u ∈ m.keys ∨ ∃ t ∈ tweets, t.Username = u) := by
  induction tweets generalizing m with
  | nil => simp
  | cons t rest ih =>
    obtain ⟨h1, h2⟩ := ih (m.set t.Username (m.get [] t.Username ++ [t]))
    simp only [List.foldl_cons]
    constructor
    · intro u
      rw [h1, GoMap.get_set]
      by_cases hu : t.Username = u
      · simp [hu, List.filter_cons]
      · simp [hu, List.filter_cons]
    · intro u
      rw [h2, GoMap.mem_keys_set]
      simp only [List.mem_cons, exists_eq_or_imp]
      constructor
      · rintro ((h | h) | h)
        · exact Or.inr (Or.inl h.symm)
        · exact Or.inl h
        · exact Or.inr (Or.inr h)
      · rintro (h | h | h)
        · exact Or.inl (Or.inr h)
        · exact Or.inl (Or.inl h.symm)
        · exact Or.inr h

theorem groupByUsername_get (tweets : List Tweet) (u : String) :
    GoMap.get [] (groupByUsername tweets) u = tweets.filter (fun t => t.Username = u) := by
  have h := (groupLoop_groups tweets []).1 u
  simpa [groupByUsername, GoMap.get] using h

theorem groupByUsername_mem_keys (tweets : List Tweet) (u : String) :
    u ∈ (groupByUsername tweets).keys ↔ ∃ t ∈ tweets, t.Username = u := by
  have h := (groupLoop_groups tweets []).2 u
  simpa [groupByUsername, GoMap.keys] using h

theorem buildAccountReports_usernames (env : LLMEnv) (m : GoMap (List Tweet))
    (order : List String) (date : String) :
    (buildAccountReports env m order date).map (fun r => r.Username) = order := by
  induction order with
  | nil => rfl
  | cons k rest ih =>
    simp only [buildAccountReports, List.map_cons, List.map_map] at ih ⊢
    rw [ih]

/-- C13: whenever `loadTweetsForDay` returns a list of filtered posts, for every order
in which the map iteration may yield the accounts, `generateDailyReport` returns a
report whose account reports have pairwise distinct usernames, these usernames being
exactly the authors of the posts, and each account report holds in `Tweets` the posts
of its author in their original order (the day's posts with the other posts
removed), with `TweetCount` the length of `Tweets` and at least 1. -/
theorem dailyReport_one_report_per_author (store : DayStore) (env : LLMEnv)
    (order : List String) (accountsList : String) (targetDate : Time)
    (tweets : List Tweet)
    (hload : loadTweetsForDay store accountsList targetDate = .ok tweets)
    (horder : order.Perm (groupByUsername tweets).keys) :
    ∃ report, generateDailyReport store env order accountsList targetDate = .ok report ∧
      (report.AccountReports.map fun r => r.Username).Nodup ∧
      (report.AccountReports.map fun r => r.Username).Perm
        (tweets.map fun t => t.Username).dedup ∧
      (∀ u, u ∈ (report.AccountReports.map fun r => r.Username) ↔
        ∃ t ∈ tweets, t.Username = u) ∧
      (∀ r ∈ report.AccountReports,
        r.Tweets = tweets.filter (fun t => t.Username = r.Username) ∧
        r.Tweets.Sublist tweets ∧
        r.TweetCount = r.Tweets.length ∧
        1 ≤ r.TweetCount) := by
  have hnames := buildAccountReports_usernames env (groupByUsername tweets) order
    targetDate.Format
  have hnodup : order.Nodup := horder.nodup_iff.mpr (groupByUsername_nodup tweets)
  have hmem : ∀ u, u ∈ order ↔ ∃ t ∈ tweets, t.Username = u := fun u =>
    horder.mem_iff.trans (groupByUsername_mem_keys tweets u)
  refine ⟨_, by simp only [generateDailyReport, hload]; rfl, ?_, ?_, ?_, ?_⟩
  · simp only
    rw [hnames]
    exact hnodup
  · simp only
    rw [hnames, List.perm_ext_iff_of_nodup hnodup (List.nodup_dedup _)]
    intro u
    rw [hmem, List.mem_dedup, List.mem_map]
  · intro u
    simp only
    rw [hnames]
    exact hmem u
  · intro r hr
    simp only [buildAccountReports, List.mem_map] at hr
    obtain ⟨u, hu, rfl⟩ := hr
    have hg := groupByUsername_get tweets u
    refine ⟨hg, ?_, rfl, ?_⟩
    · show (GoMap.get [] (groupByUsername tweets) u).Sublist tweets
      rw [hg]
      exact List.filter_sublist _
    · show (1 : Int) ≤ ((GoMap.get [] (groupByUsername tweets) u).length : Nat)
      rw [hg]
      obtain ⟨t, ht, htu⟩ := (hmem u).mp hu
      have hin : t ∈ tweets.filter (fun t => t.Username = u) := by
        simp [List.mem_filter, ht, htu]
      have := List.length_pos_of_mem hin
      omega

/-- Witness for C13: the store delivers posts of `alice`, `bob`, `bob`, `alice`,
`bob`, both accounts are allowed, and the map iteration yields `bob` first. -/
theorem dailyReport_one_report_per_author_witness :
    loadTweetsForDay (exampleStore ["alice", "bob"] exampleRows) "ai-og" (utcDay 19783)
        = .ok exampleRows ∧
      List.Perm ["bob", "alice"] (groupByUsername exampleRows).keys ∧
      generateDailyReport (exampleStore ["alice", "bob"] exampleRows) noTokenLLM
          ["bob", "alice"] "ai-og" (utcDay 19783)
        = .ok
          { Date := "2024-03-01"
            TotalTweets := 5
            AccountReports :=
              [{ Username := "bob"
                 TweetCount := 3
                 Summary := "@bob posted 3 tweets on 2024-03-01. "
                   ++ "OpenAI API key not configured for detailed analysis."
                 Tweets := [exampleTweet "2" "bob", exampleTweet "3" "bob",
                   exampleTweet "5" "bob"] },
               { Username := "alice"
                 TweetCount := 2
                 Summary := "@alice posted 2 tweets on 2024-03-01. "
                   ++ "OpenAI API key not configured for detailed analysis."
                 Tweets := [exampleTweet "1" "alice", exampleTweet "4" "alice"] }] } ∧
      ∃ report,
        generateDailyReport (exampleStore ["alice", "bob"] exampleRows) noTokenLLM
          ["bob", "alice"] "ai-og" (utcDay 19783) = .ok report ∧
        (report.AccountReports.map fun r => r.Username).Nodup := by
  obtain ⟨report, h1, h2, _⟩ :=
    dailyReport_one_report_per_author (exampleStore ["alice", "bob"] exampleRows) noTokenLLM
      ["bob", "alice"] "ai-og" (utcDay 19783) exampleRows (by rfl) (by decide)
  exact ⟨by rfl, by decide, by rfl, report, h1, h2⟩

/-! ## The statistics of the two summaries -/

/-- The inner digest loop and the inner aggregation loop keep the same counters. -/
theorem digestAccounts_stats (ars : List AccountReport) (d : Digest) (s : Stats)
    (h1 : d.totalTweets = s.totalTweets) (h2 : d.allAccounts = s.allAccounts)
    (h3 : d.activeDays = s.activeDays) :
    (ars.foldl digestAccount d).totalTweets = (ars.foldl aggregateAccount s).totalTweets ∧
      (ars.foldl digestAccount d).allAccounts = (ars.foldl aggregateAccount s).allAccounts ∧
      (ars.foldl digestAccount d).activeDays = (ars.foldl aggregateAccount s).activeDays := by
  induction ars generalizing d s with
  | nil => exact ⟨h1, h2, h3⟩
  | cons a rest ih =>
    simp only [List.foldl_cons]
    apply ih
    · simp only [digestAccount, aggregateAccount, h1]
    · simp only [digestAccount, aggregateAccount, h2]
    · simp only [digestAccount, aggregateAccount, h3]

/-- The digest loop and the aggregation loop keep the same counters. -/
theorem digestReports_stats (dailyReports : List DailyReport) (d : Digest) (s : Stats)
    (h1 : d.totalTweets = s.totalTweets) (h2 : d.allAccounts = s.allAccounts)
    (h3 : d.activeDays = s.activeDays) :
    (dailyReports.foldl digestReport d).totalTweets
        = (dailyReports.foldl aggregateReport s).totalTweets ∧
      (dailyReports.foldl digestReport d).allAccounts
        = (dailyReports.foldl aggregateReport s).allAccounts ∧
      (dailyReports.foldl digestReport d).activeDays
        = (dailyReports.foldl aggregateReport s).activeDays := by
  induction dailyReports generalizing d s with
  | nil => exact ⟨h1, h2, h3⟩
  | cons r rest ih =>
    simp only [List.foldl_cons]
    have hinner := digestAccounts_stats r.AccountReports
      { d with
        totalTweets := d.totalTweets + r.TotalTweets
        analysisText := d.analysisText
          ++ utf8 ("Day " ++ r.Date ++ " (" ++ toString r.TotalTweets
            ++ " total tweets):\n") }
      { s with totalTweets := s.totalTweets + r.TotalTweets }
      (by simp only [h1]) h2 h3
    apply ih
    · exact hinner.1
    · exact hinner.2.1
    · exact hinner.2.2

theorem buildDigest_stats (dailyReports : List DailyReport) :
    (buildDigest dailyReports).totalTweets = (aggregateStats dailyReports).totalTweets ∧
      (buildDigest dailyReports).allAccounts = (aggregateStats dailyReports).allAccounts ∧
      (buildDigest dailyReports).activeDays = (aggregateStats dailyReports).activeDays :=
  digestReports_stats dailyReports _ _ rfl rfl rfl

/-- Among account reports with distinct usernames, at most one is of `u`. -/
theorem filter_username_length (ars : List AccountReport) (u : String)
    (hnodup : (ars.map fun a => a.Username).Nodup)
    (hpos : ∀ a ∈ ars, 1 ≤ a.TweetCount) :
    (ars.filter fun a => a.Username = u).length
      = if (ars.any fun a => decide (a.Username = u) && decide (1 ≤ a.TweetCount)) = true
        then 1 else 0 := by
  induction ars with
  | nil => simp
  | cons a rest ih =>
    simp only [List.map_cons, List.nodup_cons] at hnodup
    have ih' := ih hnodup.2 (fun b hb => hpos b (List.mem_cons_of_mem _ hb))
    have ha : 1 ≤ a.TweetCount := hpos a (List.mem_cons_self _ _)
    by_cases hu : a.Username = u
    · have hnone : ∀ b ∈ rest, ¬ b.Username = u := by
        intro b hb hbu
        apply hnodup.1
        rw [hu, ← hbu]
        exact List.mem_map_of_mem _ hb
      have hfilter : rest.filter (fun a => a.Username = u) = [] := by
        rw [List.filter_eq_nil_iff]
        intro b hb
        simpa using hnone b hb
      simp [List.filter_cons, hu, ha, hfilter]
    · simp only [List.filter_cons, hu, decide_False, List.any_cons, Bool.false_and,
        Bool.false_or]
      exact ih'

/-- With distinct usernames in each day and at least one post in each account report,
the number of account reports of `u` is the number of days on which `u` has a
post. -/
theorem reportCount_eq_activeDayCount (dailyReports : List DailyReport) (u : String)
    (hunique : ∀ r ∈ dailyReports, (r.AccountReports.map fun a => a.Username).Nodup)
    (hpos : ∀ r ∈ dailyReports, ∀ a ∈ r.AccountReports, 1 ≤ a.TweetCount) :
    reportCount dailyReports u = activeDayCount dailyReports u := by
  induction dailyReports with
  | nil => simp [reportCount, activeDayCount]
  | cons r rest ih =>
    have ih' := ih (fun x hx => hunique x (List.mem_cons_of_mem _ hx))
      (fun x hx => hpos x (List.mem_cons_of_mem _ hx))
    have hr := filter_username_length r.AccountReports u
      (hunique r (List.mem_cons_self _ _)) (hpos r (List.mem_cons_self _ _))
    simp only [reportCount, activeDayCount, List.map_cons, List.sum_cons, List.filter_cons]
      at ih' ⊢
    rw [ih', hr]
    by_cases hany : hasPostOn u r = true
    · have hany' := hany
      simp only [hasPostOn] at hany'
      simp only [hany, hany', if_true, List.length_cons]
      push_cast
      ring
    · have hany' := hany
      simp only [hasPostOn] at hany'
      simp only [hany, hany', if_false]
      simp

/-- C14: for every sequence of daily reports with distinct usernames within each day
and `TweetCount ≥ 1` in every account report, the counters aggregated by
`generateOverallSummary` (the digest loop) are those aggregated by
`generateSimpleOverallSummary`, and for each account `u` the total `allAccounts[u]`
is the sum of its `TweetCount` over the window and the active-day count
`activeDays[u]` is the number of days (daily reports) on which `u` has at least one
post; when the dates of the daily reports are pairwise distinct this is the number
of distinct dates on which `u` has at least one post. -/
theorem aggregated_statistics_agree (dailyReports : List DailyReport)
    (hunique : ∀ r ∈ dailyReports, (r.AccountReports.map fun a => a.Username).Nodup)
    (hpos : ∀ r ∈ dailyReports, ∀ a ∈ r.AccountReports, 1 ≤ a.TweetCount) :
    (buildDigest dailyReports).totalTweets = (aggregateStats dailyReports).totalTweets ∧
      (buildDigest dailyReports).allAccounts = (aggregateStats dailyReports).allAccounts ∧
      (buildDigest dailyReports).activeDays = (aggregateStats dailyReports).activeDays ∧
      ∀ u,
        GoMap.get 0 (aggregateStats dailyReports).allAccounts u = windowTotal dailyReports u ∧
        GoMap.get 0 (buildDigest dailyReports).allAccounts u = windowTotal dailyReports u ∧
        GoMap.get 0 (aggregateStats dailyReports).activeDays u
          = activeDayCount dailyReports u ∧
        GoMap.get 0 (buildDigest dailyReports).activeDays u
          = activeDayCount dailyReports u ∧
        ((dailyReports.map fun r => r.Date).Nodup →
          GoMap.get 0 (aggregateStats dailyReports).activeDays u
            = ((((dailyReports.filter (hasPostOn u)).map fun r => r.Date).dedup.length : Nat)
              : Int)) := by
  obtain ⟨h1, h2, h3⟩ := buildDigest_stats dailyReports
  refine ⟨h1, h2, h3, ?_⟩
  intro u
  have hdays : GoMap.get 0 (aggregateStats dailyReports).activeDays u
      = activeDayCount dailyReports u := by
    rw [aggregateStats_activeDays, reportCount_eq_activeDayCount dailyReports u hunique hpos]
  refine ⟨aggregateStats_get dailyReports u, ?_, hdays, ?_, ?_⟩
  · rw [h2]
    exact aggregateStats_get dailyReports u
  · rw [h3]
    exact hdays
  · intro hdates
    rw [hdays]
    have hsub : ((dailyReports.filter (hasPostOn u)).map fun r => r.Date).Sublist
        (dailyReports.map fun r => r.Date) := (List.filter_sublist _).map _
    have hnd := hdates.sublist hsub
    rw [hnd.dedup]
    simp [activeDayCount]

/-- Witness for C14: `B` posts on both days, `A` and `C` on one day each. -/
theorem aggregated_statistics_agree_witness :
    (∀ r ∈ [exampleDay "2024-03-01" [("A", 5), ("B", 2)],
        exampleDay "2024-03-02" [("B", 4), ("C", 1)]],
        (r.AccountReports.map fun a => a.Username).Nodup) ∧
      (∀ r ∈ [exampleDay "2024-03-01" [("A", 5), ("B", 2)],
        exampleDay "2024-03-02" [("B", 4), ("C", 1)]],
        ∀ a ∈ r.AccountReports, 1 ≤ a.TweetCount) ∧
      (aggregateStats [exampleDay "2024-03-01" [("A", 5), ("B", 2)],
        exampleDay "2024-03-02" [("B", 4), ("C", 1)]]).allAccounts
        = [("A", 5), ("B", 6), ("C", 1)] ∧
      (aggregateStats [exampleDay "2024-03-01" [("A", 5), ("B", 2)],
        exampleDay "2024-03-02" [("B", 4), ("C", 1)]]).activeDays
        = [("A", 1), ("B", 2), ("C", 1)] ∧
      (buildDigest [exampleDay "2024-03-01" [("A", 5), ("B", 2)],
          exampleDay "2024-03-02" [("B", 4), ("C", 1)]]).activeDays
        = (aggregateStats [exampleDay "2024-03-01" [("A", 5), ("B", 2)],
          exampleDay "2024-03-02" [("B", 4), ("C", 1)]]).activeDays := by
  have h := aggregated_statistics_agree
    [exampleDay "2024-03-01" [("A", 5), ("B", 2)],
      exampleDay "2024-03-02" [("B", 4), ("C", 1)]] (by decide) (by decide)
  exact ⟨by decide, by decide, by decide, by decide, h.2.2.1⟩

/-! ## The allow-list file -/

theorem trimChars_cons_space (c : Char) (l : List Char) (hc : isSpace c = true) :
    trimChars (c :: l) = trimChars l := by
  simp [trimChars, List.dropWhile_cons_of_pos hc]

theorem trimChars_concat_space (c : Char) (l : List Char) (hc : isSpace c = true) :
    trimChars (l ++ [c]) = trimChars l := by
  induction l with
  | nil => simp [trimChars, hc]
  | cons d l ih =>
    by_cases hd : isSpace d = true
    · rw [List.cons_append, trimChars_cons_space d _ hd, trimChars_cons_space d _ hd, ih]
    · have h1 : (d :: (l ++ [c])).dropWhile isSpace = (d :: l) ++ [c] := by
        rw [List.dropWhile_cons_of_neg hd]
        rfl
      simp only [trimChars, List.cons_append, h1, List.dropWhile_cons_of_neg hd]
      exact List.rdropWhile_concat_pos isSpace (d :: l) c hc

theorem splitChars_ne_nil (l : List Char) : splitChars l ≠ [] := by
  cases l with
  | nil => simp [splitChars]
  | cons c cs =>
    simp only [splitChars]
    split
    · simp
    · split <;> simp

/-- A line feed (which is white space) in front adds an empty first line. -/
theorem splitChars_cons_newline (l : List Char) :
    splitChars (Char.ofNat 10 :: l) = [] :: splitChars l := by
  simp [splitChars]

/-- Another character in front goes to the first line. -/
theorem splitChars_cons_other (c : Char) (l : List Char) (hc : c ≠ Char.ofNat 10) :
    ∃ line lines, splitChars l = line :: lines ∧
      splitChars (c :: l) = (c :: line) :: lines := by
  cases h : splitChars l with
  | nil => exact absurd h (splitChars_ne_nil l)
  | cons line lines => exact ⟨line, lines, rfl, by simp [splitChars, hc, h]⟩

/-- The non-blank trimmed lines of a text. -/
theorem trimmedLines_cons_space (c : Char) (l : List Char) (hc : isSpace c = true) :
    ((splitChars (c :: l)).map trimChars).filter (fun t => decide (t ≠ []))
      = ((splitChars l).map trimChars).filter (fun t => decide (t ≠ [])) := by
  by_cases hn : c = Char.ofNat 10
  · subst hn
    rw [splitChars_cons_newline]
    simp [trimChars]
  · obtain ⟨line, lines, h1, h2⟩ := splitChars_cons_other c l hn
    rw [h1, h2]
    simp only [List.map_cons, trimChars_cons_space c line hc]

/-- A white space character at the end changes the first line only at its end, and
leaves the non-blank trimmed forms of the other lines as they are. -/
theorem splitChars_concat_space (c : Char) (l : List Char) (hc : isSpace c = true) :
    ∃ line lines line' lines', splitChars l = line :: lines ∧
      splitChars (l ++ [c]) = line' :: lines' ∧
      (line' = line ∨ line' = line ++ [c]) ∧
      (lines'.map trimChars).filter (fun t => decide (t ≠ []))
        = (lines.map trimChars).filter (fun t => decide (t ≠ [])) := by
  induction l with
  | nil =>
    by_cases hn : c = Char.ofNat 10
    · subst hn
      exact ⟨[], [], [], [[]], by simp [splitChars], by simp [splitChars], Or.inl rfl,
        by simp [trimChars]⟩
    · exact ⟨[], [], [c], [], by simp [splitChars], by simp [splitChars, hn], Or.inr rfl, rfl⟩
  | cons d l ih =>
    obtain ⟨line, lines, line', lines', h1, h2, h3, h4⟩ := ih
    have htrim : trimChars line' = trimChars line := by
      rcases h3 with rfl | rfl
      · rfl
      · exact trimChars_concat_space c line hc
    by_cases hd : d = Char.ofNat 10
    · subst hd
      refine ⟨[], splitChars l, [], splitChars (l ++ [c]), splitChars_cons_newline l,
        by rw [List.cons_append, splitChars_cons_newline], Or.inl rfl, ?_⟩
      rw [h1, h2]
      simp only [List.map_cons, htrim, List.filter_cons, h4]
    · refine ⟨d :: line, lines, d :: line', lines', by simp [splitChars, hd, h1],
        by simp [splitChars, hd, h2], ?_, h4⟩
      rcases h3 with rfl | rfl
      · exact Or.inl rfl
      · exact Or.inr rfl

theorem trimmedLines_concat_space (c : Char) (l : List Char) (hc : isSpace c = true) :
    ((splitChars (l ++ [c])).map trimChars).filter (fun t => decide (t ≠ []))
      = ((splitChars l).map trimChars).filter (fun t => decide (t ≠ [])) := by
  obtain ⟨line, lines, line', lines', h1, h2, h3, h4⟩ := splitChars_concat_space c l hc
  have htrim : trimChars line' = trimChars line := by
    rcases h3 with rfl | rfl
    · rfl
    · exact trimChars_concat_space c line hc
  rw [h1, h2]
  simp only [List.map_cons, htrim, List.filter_cons, h4]

theorem trimmedLines_dropWhile (l : List Char) :
    ((splitChars (l.dropWhile isSpace)).map trimChars).filter (fun t => decide (t ≠ []))
      = ((splitChars l).map trimChars).filter (fun t => decide (t ≠ [])) := by
  induction l with
  | nil => rfl
  | cons d l ih =>
    by_cases hd : isSpace d = true
    · rw [List.dropWhile_cons_of_pos hd, ih, trimmedLines_cons_space d l hd]
    · rw [List.dropWhile_cons_of_neg hd]

theorem trimmedLines_rdropWhile (l : List Char) :
    ((splitChars (l.rdropWhile isSpace)).map trimChars).filter (fun t => decide (t ≠ []))
      = ((splitChars l).map trimChars).filter (fun t => decide (t ≠ [])) := by
  induction l using List.reverseRecOn with
  | nil => rfl
  | append_singleton l c ih =>
    by_cases hc : isSpace c = true
    · rw [List.rdropWhile_concat_pos _ _ _ hc, ih, trimmedLines_concat_space c l hc]
    · rw [List.rdropWhile_concat_neg _ _ _ hc]

/-- Trimming the whole text first does not change its non-blank trimmed lines. -/
theorem trimmedLines_trimChars (l : List Char) :
    ((splitChars (trimChars l)).map trimChars).filter (fun t => decide (t ≠ []))
      = ((splitChars l).map trimChars).filter (fun t => decide (t ≠ [])) := by
  have h : trimChars l = (l.dropWhile isSpace).rdropWhile isSpace := rfl
  rw [h, trimmedLines_rdropWhile, trimmedLines_dropWhile]

theorem trimChars_head_not_space (l : List Char) (c : Char)
    (h : (trimChars l).head? = some c) : isSpace c = false := by
  obtain ⟨t, ht⟩ : trimChars l <+: l.dropWhile isSpace :=
    List.rdropWhile_prefix isSpace (l.dropWhile isSpace)
  cases htl : trimChars l with
  | nil => simp [htl] at h
  | cons d r =>
    rw [htl] at h ht
    simp only [List.head?_cons, Option.some.injEq] at h
    subst h
    have hnot := List.head?_dropWhile_not isSpace l
    rw [← ht] at hnot
    simpa using hnot

theorem trimChars_last_not_space (l : List Char) (c : Char)
    (h : (trimChars l).getLast? = some c) : isSpace c = false := by
  have hne : trimChars l ≠ [] := by
    intro h0
    simp [h0] at h
  have hnot := List.rdropWhile_last_not isSpace (l.dropWhile isSpace) hne
  have hlast : (trimChars l).getLast hne = c := by
    rw [List.getLast?_eq_getLast _ hne] at h
    exact Option.some.inj h
  have hl : ((l.dropWhile isSpace).rdropWhile isSpace).getLast hne = c := hlast
  rw [hl] at hnot
  simpa using hnot

theorem isValidAccount_mk (t : List Char) :
    isValidAccount ⟨t⟩ = (decide (t ≠ []) && !decide (t.head? = some '#')) := by
  have h : (String.mk t = "") ↔ t = [] := by
    constructor
    · intro h
      exact congrArg String.data h
    · intro h
      rw [h]
  simp [isValidAccount, startsWithHash, h]

/-- The loop of `getAccounts` keeps the trimmed lines that pass its test. -/
theorem accountsLoop_eq (accounts : List String) (acc : List String) :
    accounts.foldl
        (fun validAccounts account =>
          if isValidAccount (TrimSpace account) then
            validAccounts ++ [TrimSpace account]
          else
            validAccounts)
        acc
      = acc ++ (accounts.map TrimSpace).filter isValidAccount := by
  induction accounts generalizing acc with
  | nil => simp
  | cons a rest ih =>
    simp only [List.foldl_cons, List.map_cons, List.filter_cons]
    by_cases h : isValidAccount (TrimSpace a) = true
    · simp only [h, if_true, ih, List.append_assoc, List.singleton_append]
    · simp only [h, if_false, ih]
      simp

/-- Trimming the whole file first does not change the accounts. -/
theorem validLines_TrimSpace (data : String) :
    ((SplitLines (TrimSpace data)).map TrimSpace).filter isValidAccount
      = ((SplitLines data).map TrimSpace).filter isValidAccount := by
  have key : ∀ l : List Char,
      ((SplitLines ⟨l⟩).map TrimSpace).filter isValidAccount
        = ((((splitChars l).map trimChars).filter (fun t => decide (t ≠ []))).filter
            (fun t => !decide (t.head? = some '#'))).map String.mk := by
    intro l
    simp only [SplitLines, TrimSpace, List.map_map, List.filter_filter, List.filter_map]
    congr 1
    apply List.filter_congr
    intro t _
    simp only [Function.comp]
    rw [Bool.and_comm]
    exact isValidAccount_mk (trimChars t)
  have h1 := key (trimChars data.data)
  have h2 := key data.data
  rw [trimmedLines_trimChars] at h1
  exact h1.trans h2.symm

/-- C12: for every content `data` of the allow-list file, `getAccounts` returns the
list obtained from the lines of `data` (its pieces between line feeds), in file
order, by trimming each line and keeping the trimmed forms that are not empty (the
line is not blank) and do not begin with `#`.  Every returned identifier is non-empty,
does not begin with `#`, and neither begins nor ends with a white space character;
the trimmed form of every line that is not blank and does not begin with `#` after
trimming is returned, and nothing else is. -/
theorem getAccounts_returns_trimmed_valid_lines
    (readAccountsFile : String → Except String String) (accountsList data : String)
    (hread : readAccountsFile accountsList = .ok data) :
    ∃ accounts, getAccounts readAccountsFile accountsList = .ok accounts ∧
      accounts = ((SplitLines data).map TrimSpace).filter isValidAccount ∧
      accounts.Sublist ((SplitLines data).map TrimSpace) ∧
      (∀ a ∈ accounts, a ≠ "" ∧ startsWithHash a = false ∧
        (∀ c, a.data.head? = some c → isSpace c = false) ∧
        (∀ c, a.data.getLast? = some c → isSpace c = false)) ∧
      (∀ line ∈ SplitLines data, TrimSpace line ≠ "" →
        startsWithHash (TrimSpace line) = false → TrimSpace line ∈ accounts) ∧
      (∀ a ∈ accounts, ∃ line ∈ SplitLines data, a = TrimSpace line) := by
  refine ⟨((SplitLines data).map TrimSpace).filter isValidAccount, ?_, rfl,
    List.filter_sublist _, ?_, ?_, ?_⟩
  · simp only [getAccounts, hread, accountsLoop_eq, List.nil_append, validLines_TrimSpace]
  · intro a ha
    rw [List.mem_filter, List.mem_map] at ha
    obtain ⟨⟨line, _, rfl⟩, hvalid⟩ := ha
    simp only [isValidAccount, Bool.and_eq_true, decide_eq_true_eq, Bool.not_eq_true']
      at hvalid
    exact ⟨hvalid.1, hvalid.2, fun c hc => trimChars_head_not_space line.data c hc,
      fun c hc => trimChars_last_not_space line.data c hc⟩
  · intro line hline hne hhash
    rw [List.mem_filter, List.mem_map]
    refine ⟨⟨line, hline, rfl⟩, ?_⟩
    simp [isValidAccount, hne, hhash]
  · intro a ha
    rw [List.mem_filter, List.mem_map] at ha
    obtain ⟨⟨line, hline, rfl⟩, _⟩ := ha
    exact ⟨line, hline, rfl⟩

/-- Witness for C12: a file with comments, an indented comment, blank lines, padded
lines and a final line feed; the accounts are `alice`, `bob` and `Dave Smith`. -/
theorem getAccounts_returns_trimmed_valid_lines_witness :
    (fun _ : String => (Except.ok exampleAccountsFile : Except String String)) "ai-og"
        = .ok exampleAccountsFile ∧
      getAccounts (fun _ => .ok exampleAccountsFile) "ai-og"
        = .ok ["alice", "bob", "Dave Smith"] ∧
      ∃ accounts, getAccounts (fun _ => .ok exampleAccountsFile) "ai-og" = .ok accounts ∧
        accounts = ((SplitLines exampleAccountsFile).map TrimSpace).filter isValidAccount := by
  obtain ⟨accounts, h1, h2, _⟩ :=
    getAccounts_returns_trimmed_valid_lines (fun _ => .ok exampleAccountsFile) "ai-og"
      exampleAccountsFile rfl
  exact ⟨rfl, by rfl, accounts, h1, h2⟩

end OsintReports
